import Mathlib

/-!
Verification of the Chronos Markets prediction-market contract
(`src/linera-app/contract/src/lib.rs`, the v2.0 error-returning revision).

Shallow embedding conventions:
* `u128` values are `Nat`; unchecked Rust `+` / `*` on `u128` (which wrap in
  release builds) are modelled by `wadd` / `wmul`, i.e. arithmetic `% 2^128`;
  `checked_mul` is modelled by an explicit `< MOD` test; `Amount`'s
  `saturating_add` is `satAdd` (capped at `2^128 - 1`) and `saturating_sub`
  is `Nat.sub` (which already floors at zero).
* `u64` counters wrap at `2^64` (`% U64MOD`).
* `AccountOwner` and `Timestamp` are modelled as `Nat`.
* `MapView` collections are association lists with first-occurrence lookup
  and in-place replacement on insert.
* Fallible Rust code returning `Result<_, String>` is modelled with
  `Except Err _` where `Err` mirrors the distinct error messages.
* `execute_operation_inner` mutates `self.state` in place and propagates
  errors with `?`; mutations performed before an error point persist
  (the runtime catches the error, answers with an ERROR string and still
  saves the state).  The embedding therefore threads the state through
  error paths exactly as far as the Rust code mutated it.
-/

namespace Chronos

/-- `2^128`, the size of the `u128` domain. -/
def MOD : Nat := 2 ^ 128

/-- `u128::MAX`, the saturation bound of `Amount`. -/
def UMAX : Nat := MOD - 1

/-- `2^64`, the size of the `u64` domain. -/
def U64MOD : Nat := 2 ^ 64

/-- The fixed-point scale `10^18` used for combo odds. -/
def SCALE : Nat := 1000000000000000000

/-- The scale `10^9` used by `safe_mul_div`'s approximation fallback. -/
def FSCALE : Nat := 1000000000

/-- Wrapping `u128` addition (release-mode unchecked `+`). -/
def wadd (x y : Nat) : Nat := (x + y) % MOD

/-- Wrapping `u128` multiplication (release-mode unchecked `*`). -/
def wmul (x y : Nat) : Nat := (x * y) % MOD

/-- `Amount::saturating_add`, capped at `u128::MAX`. -/
def satAdd (x y : Nat) : Nat := min (x + y) UMAX

/-- Errors returned by the contract, one constructor per distinct
error message produced in `lib.rs`. -/
inductive Err where
  | divisionByZero
  | overflow
  | notAuthenticated
  | zeroLiquidity
  | marketNotFound (id : Nat)
  | marketResolvedErr (id : Nat)
  | marketEnded (id : Nat)
  | zeroShares
  | insufficientLiquidity
  | costExceedsMax
  | proceedsBelowMin
  | notAuthorized
  | marketNotResolved (id : Nat)
  | positionNotFound
  | alreadyClaimed
  | outcomeNotSet
  | noWinningShares
  | orderNotFound (id : Nat)
  | orderNotCancellable (id : Nat)
  | tooFewLegs
  | tooManyLegs
  | comboNotFound (id : Nat)
  | comboNotActive (id : Nat)
  | comboLegResolved
  | comboMarketResolved (id : Nat)
  | comboZeroLiquidity (id : Nat)
  | agentNotFound (id : Nat)
  | feedItemNotFound (id : Nat)
  deriving DecidableEq, Repr

/-- `safe_mul_div` from `lib.rs` lines 18-56: compute `(a * b) / c` with a
fast path, an exact decomposition `a = q*c + r`, a second exact
decomposition of `r * b` through `b = (b/c)*c + b%c`, and a lossy scaled
approximation (`10^9` scale) as a last resort. -/
def safe_mul_div (a b c : Nat) : Except Err Nat :=
  if c = 0 then .error .divisionByZero
  else if a * b < MOD then .ok (a * b / c)
  else
    let quotient := a / c
    let remainder := a % c
    if quotient * b < MOD then
      let term1 := quotient * b
      let term2 :=
        if remainder * b < MOD then remainder * b / c
        else
          let b_div_c := b / c
          let b_mod_c := b % c
          let sub1 :=
            if remainder * b_div_c < MOD then remainder * b_div_c
            else wmul (wmul (remainder / FSCALE) (b_div_c / FSCALE)) FSCALE
          let sub2 :=
            if remainder * b_mod_c < MOD then remainder * b_mod_c / c
            else wmul (remainder / FSCALE) (b_mod_c / FSCALE) /
                   (max (c / (FSCALE * FSCALE)) 1)
          wadd sub1 sub2
      .ok (wadd term1 term2)
    else .error .overflow

/-- Association-list lookup: value at the first occurrence of the key
(mirrors `MapView::get`). -/
def mapGet {K V : Type} [DecidableEq K] : List (K × V) → K → Option V
  | [], _ => none
  | e :: rest, k => if e.1 = k then some e.2 else mapGet rest k

/-- Association-list insert: replace the first occurrence of the key, or
append (mirrors `MapView::insert`). -/
def mapInsert {K V : Type} [DecidableEq K] : List (K × V) → K → V → List (K × V)
  | [], k, v => [(k, v)]
  | e :: rest, k, v => if e.1 = k then (k, v) :: rest else e :: mapInsert rest k v

/-- Association-list removal of every occurrence of a key
(mirrors `MapView::remove`). -/
def mapRemove {K V : Type} [DecidableEq K] (l : List (K × V)) (k : K) :
    List (K × V) :=
  l.filter (fun e => e.1 ≠ k)

/-- `state.rs` `Market`. -/
structure Market where
  id : Nat
  creator : Nat
  question : String
  categories : List String
  end_time : Nat
  created_at : Nat
  yes_pool : Nat
  no_pool : Nat
  total_yes_shares : Nat
  total_no_shares : Nat
  resolved : Bool
  outcome : Option Bool
  volume : Nat
  deriving DecidableEq, Repr

/-- `state.rs` `Position`, keyed by `(owner, market_id)`. -/
structure Position where
  market_id : Nat
  owner : Nat
  yes_shares : Nat
  no_shares : Nat
  claimed : Bool
  deriving DecidableEq, Repr

inductive OrderSide where
  | Buy
  | Sell
  deriving DecidableEq, Repr

inductive OrderDuration where
  | GoodTillCancelled
  | ImmediateOrCancel
  deriving DecidableEq, Repr

inductive OrderStatus where
  | Open
  | PartiallyFilled
  | Filled
  | Cancelled
  | Expired
  deriving DecidableEq, Repr

/-- `state.rs` `LimitOrder` (stub: never matched). -/
structure LimitOrder where
  id : Nat
  owner : Nat
  market_id : Nat
  is_yes : Bool
  side : OrderSide
  price : Nat
  original_amount : Nat
  filled_amount : Nat
  duration : OrderDuration
  created_at : Nat
  status : OrderStatus
  deriving DecidableEq, Repr

inductive ComboStatus where
  | Active
  | Won
  | Lost
  | PartiallyResolved
  | Cancelled
  deriving DecidableEq, Repr

/-- `state.rs` `ComboLegState`: a leg with its odds snapshot. -/
structure ComboLegState where
  market_id : Nat
  prediction : Bool
  odds : Nat
  resolved : Bool
  won : Option Bool
  deriving DecidableEq, Repr

/-- `state.rs` `Combo`. -/
structure Combo where
  id : Nat
  owner : Nat
  name : String
  legs : List ComboLegState
  stake : Nat
  potential_payout : Nat
  created_at : Nat
  status : ComboStatus
  deriving DecidableEq, Repr

inductive AgentStrategy where
  | Momentum
  | MeanReversion
  | Arbitrage
  | MarketMaker
  | Sentiment
  | Custom
  deriving DecidableEq, Repr

/-- `state.rs` `TradingAgent` (metadata only, no autonomous logic). -/
structure TradingAgent where
  id : Nat
  owner : Nat
  name : String
  strategy : AgentStrategy
  config : String
  capital : Nat
  total_volume : Nat
  profit_loss : Int
  win_rate : Nat
  total_trades : Nat
  winning_trades : Nat
  followers_count : Nat
  is_active : Bool
  created_at : Nat
  deriving DecidableEq, Repr

/-- `state.rs` `AgentFollower`. -/
structure AgentFollower where
  agent_id : Nat
  follower : Nat
  allocation : Nat
  copy_trades : Bool
  started_at : Nat
  total_copied_pnl : Int
  deriving DecidableEq, Repr

inductive FeedItemType where
  | Trade
  | MarketCreated
  | Comment
  | Follow
  | Achievement
  deriving DecidableEq, Repr

/-- `state.rs` `FeedItem`. -/
structure FeedItem where
  id : Nat
  author : Nat
  item_type : FeedItemType
  market_id : Option Nat
  content : String
  data : String
  likes_count : Nat
  comments_count : Nat
  created_at : Nat
  deriving DecidableEq, Repr

/-- The root view `MarketState` of `state.rs`, with every `MapView` as an
association list and every `RegisterView` inline. -/
structure MarketState where
  markets : List (Nat × Market)
  positions : List ((Nat × Nat) × Position)
  next_market_id : Nat
  total_volume : Nat
  limit_orders : List (Nat × LimitOrder)
  next_order_id : Nat
  order_book : List ((Nat × Bool) × List Nat)
  combos : List (Nat × Combo)
  next_combo_id : Nat
  user_combos : List (Nat × List Nat)
  agents : List (Nat × TradingAgent)
  next_agent_id : Nat
  agent_followers : List ((Nat × Nat) × AgentFollower)
  feed_items : List (Nat × FeedItem)
  next_feed_id : Nat
  user_followers : List (Nat × List Nat)
  user_following : List (Nat × List Nat)
  item_likes : List (Nat × List Nat)
  deriving DecidableEq, Repr

/-- The state set up by `instantiate`: empty collections, zero counters. -/
def initState : MarketState :=
  { markets := [], positions := [], next_market_id := 0, total_volume := 0,
    limit_orders := [], next_order_id := 0, order_book := [],
    combos := [], next_combo_id := 0, user_combos := [],
    agents := [], next_agent_id := 0, agent_followers := [],
    feed_items := [], next_feed_id := 0,
    user_followers := [], user_following := [], item_likes := [] }

/-- A combo-leg request (`ComboLeg` of the ABI). -/
structure ComboLeg where
  market_id : Nat
  prediction : Bool
  deriving DecidableEq, Repr

/-- The `Operation` ABI enum, one constructor per variant. -/
inductive Operation where
  | CreateMarket (question : String) (categories : List String)
      (end_time : Nat) (initial_liquidity : Nat)
  | BuyShares (market_id : Nat) (is_yes : Bool) (shares : Nat) (max_cost : Nat)
  | SellShares (market_id : Nat) (is_yes : Bool) (shares : Nat)
      (min_proceeds : Nat)
  | ResolveMarket (market_id : Nat) (outcome : Bool)
  | ClaimWinnings (market_id : Nat)
  | PlaceLimitOrder (market_id : Nat) (is_yes : Bool) (side : OrderSide)
      (price : Nat) (amount : Nat) (duration : OrderDuration)
  | CancelLimitOrder (order_id : Nat)
  | CreateCombo (name : String) (legs : List ComboLeg) (stake : Nat)
  | CancelCombo (combo_id : Nat)
  | CreateAgent (name : String) (strategy : AgentStrategy) (config : String)
      (initial_capital : Nat)
  | UpdateAgentConfig (agent_id : Nat) (config : String)
  | ToggleAgent (agent_id : Nat) (active : Bool)
  | FollowAgent (agent_id : Nat) (allocation : Nat)
  | UnfollowAgent (agent_id : Nat)
  | PostComment (market_id : Nat) (content : String)
  | FollowUser (user : Nat)
  | UnfollowUser (user : Nat)
  | LikeFeedItem (item_id : Nat)
  deriving DecidableEq, Repr

/-- Structured form of the success strings returned by
`execute_operation_inner` (one constructor per `Ok(format!(..))` shape). -/
inductive Resp where
  | MarketCreated (id : Nat)
  | SharesPurchased (cost : Nat)
  | SharesSold (proceeds : Nat)
  | MarketResolved
  | WinningsClaimed (payout : Nat)
  | LimitOrderPlaced (id : Nat)
  | LimitOrderCancelled
  | ComboCreated (id : Nat)
  | ComboCancelled
  | AgentCreated (id : Nat)
  | AgentUpdated
  | AgentToggled
  | AgentFollowed
  | AgentUnfollowed
  | CommentPosted (id : Nat)
  | UserFollowed
  | UserUnfollowed
  | ItemLiked
  deriving DecidableEq, Repr

/-- Per-call environment inputs: `system_time()` and
`authenticated_signer()`. -/
structure Ctx where
  timestamp : Nat
  caller : Option Nat
  deriving DecidableEq, Repr

/-- `update_position` of `lib.rs` lines 714-752: lazily default the
position to zero shares, then saturating-add on buys and saturating-sub
on sells (silently clamping at zero). -/
def update_position (s : MarketState) (owner market_id : Nat) (is_yes : Bool)
    (shares : Nat) (is_buy : Bool) : MarketState :=
  let key := (owner, market_id)
  let position := (mapGet s.positions key).getD
    { market_id := market_id, owner := owner, yes_shares := 0,
      no_shares := 0, claimed := false }
  let position :=
    if is_buy then
      if is_yes then { position with yes_shares := satAdd position.yes_shares shares }
      else { position with no_shares := satAdd position.no_shares shares }
    else
      if is_yes then { position with yes_shares := position.yes_shares - shares }
      else { position with no_shares := position.no_shares - shares }
  { s with positions := mapInsert s.positions key position }

/-- `create_feed_item` of `lib.rs` lines 754-781. -/
def create_feed_item (s : MarketState) (author : Nat) (item_type : FeedItemType)
    (market_id : Option Nat) (content : String) (timestamp : Nat) :
    MarketState × Nat :=
  let feed_id := s.next_feed_id
  let item : FeedItem :=
    { id := feed_id, author := author, item_type := item_type,
      market_id := market_id, content := content, data := "\x7b\x7d",
      likes_count := 0, comments_count := 0, created_at := timestamp }
  ({ s with feed_items := mapInsert s.feed_items feed_id item,
            next_feed_id := (feed_id + 1) % U64MOD }, feed_id)

/-- One leg's in-place mutation inside the resolution cascade: a leg of
the resolving market that is not yet resolved is marked resolved with
`won = Some(prediction == outcome)`. -/
def cascadeLeg (market_id : Nat) (outcome : Bool) (leg : ComboLegState) :
    ComboLegState :=
  if leg.market_id = market_id ∧ leg.resolved = false then
    { leg with resolved := true, won := some (leg.prediction == outcome) }
  else leg

/-- Status recomputation of `update_combos_for_market`: `Lost` if any
resolved leg lost, else `Won` if all legs resolved, else
`PartiallyResolved`. -/
def comboStatusAfter (legs : List ComboLegState) : ComboStatus :=
  if legs.any (fun l => l.resolved && l.won == some false) then .Lost
  else if legs.all (fun l => l.resolved) then .Won
  else .PartiallyResolved

/-- The whole-combo update applied when at least one leg matched. -/
def cascadeCombo (market_id : Nat) (outcome : Bool) (c : Combo) : Combo :=
  let legs := c.legs.map (cascadeLeg market_id outcome)
  { c with legs := legs, status := comboStatusAfter legs }

/-- One iteration of the cascade loop body (`lib.rs` lines 786-822):
skip missing combos and combos that are neither `Active` nor
`PartiallyResolved`; re-insert only when a leg was updated. -/
def cascadeIter (market_id : Nat) (outcome : Bool)
    (combos : List (Nat × Combo)) (combo_id : Nat) : List (Nat × Combo) :=
  match mapGet combos combo_id with
  | none => combos
  | some c =>
    if c.status ≠ ComboStatus.Active ∧ c.status ≠ ComboStatus.PartiallyResolved
    then combos
    else if c.legs.any (fun l => l.market_id == market_id && !l.resolved) then
      mapInsert combos combo_id (cascadeCombo market_id outcome c)
    else combos

/-- `update_combos_for_market` of `lib.rs` lines 783-826: scan combo ids
`0 .. next_combo_id` and apply the cascade to each. -/
def update_combos_for_market (s : MarketState) (market_id : Nat)
    (outcome : Bool) : MarketState :=
  { s with combos := (List.range s.next_combo_id).foldl (cascadeIter market_id outcome) s.combos }

/-- The combo-leg loop of `CreateCombo` (`lib.rs` lines 447-482):
fetch each leg's market, reject resolved or zero-liquidity markets,
snapshot the predicted side's implied probability
`opposing_pool * SCALE / total` and fold
`combined := combined * SCALE / odds` (skipped when `odds = 0`).
Unchecked `u128` arithmetic wraps (`wadd` / `wmul`). -/
def buildComboLegs (s : MarketState) :
    List ComboLeg → Nat → Except Err (List ComboLegState × Nat)
  | [], combined => .ok ([], combined)
  | leg :: rest, combined =>
    match mapGet s.markets leg.market_id with
    | none => .error (.marketNotFound leg.market_id)
    | some market =>
      if market.resolved then .error (.comboMarketResolved leg.market_id)
      else
        let total := wadd market.yes_pool market.no_pool
        if total = 0 then .error (.comboZeroLiquidity leg.market_id)
        else
          let odds :=
            if leg.prediction then wmul market.no_pool SCALE / total
            else wmul market.yes_pool SCALE / total
          let combined := if odds > 0 then wmul combined SCALE / odds else combined
          match buildComboLegs s rest combined with
          | .error e => .error e
          | .ok (tail, final) =>
            .ok ({ market_id := leg.market_id, prediction := leg.prediction,
                   odds := odds, resolved := false, won := none } :: tail, final)

/-- `execute_operation_inner` of `lib.rs` lines 114-712.  Returns the
post-call state (mutations made before an error persist, since the
runtime converts the error to a response string and still saves) and the
structured result. -/
def exec (s : MarketState) (ctx : Ctx) (op : Operation) :
    MarketState × Except Err Resp :=
  match ctx.caller with
  | none => (s, .error .notAuthenticated)
  | some caller =>
    match op with
    | .CreateMarket question categories end_time initial_liquidity =>
      let market_id := s.next_market_id
      let s := { s with next_market_id := (market_id + 1) % U64MOD }
      if initial_liquidity = 0 then (s, .error .zeroLiquidity)
      else
        let half := initial_liquidity / 2
        let market : Market :=
          { id := market_id, creator := caller, question := question,
            categories := categories, end_time := end_time,
            created_at := ctx.timestamp, yes_pool := half, no_pool := half,
            total_yes_shares := half, total_no_shares := half,
            resolved := false, outcome := none, volume := 0 }
        let s := { s with markets := mapInsert s.markets market_id market }
        let s := (create_feed_item s caller .MarketCreated (some market_id)
          question ctx.timestamp).1
        (s, .ok (.MarketCreated market_id))
    | .BuyShares market_id is_yes shares max_cost =>
      match mapGet s.markets market_id with
      | none => (s, .error (.marketNotFound market_id))
      | some market =>
        if market.resolved then (s, .error (.marketResolvedErr market_id))
        else if ctx.timestamp > market.end_time then
          (s, .error (.marketEnded market_id))
        else
          let pool_in := if is_yes then market.no_pool else market.yes_pool
          let pool_out := if is_yes then market.yes_pool else market.no_pool
          if shares = 0 then (s, .error .zeroShares)
          else if shares ≥ pool_out then (s, .error .insufficientLiquidity)
          else
            match safe_mul_div pool_in shares (pool_out - shares) with
            | .error e => (s, .error e)
            | .ok cost =>
              if cost > max_cost then (s, .error .costExceedsMax)
              else
                let market :=
                  if is_yes then
                    { market with
                      no_pool := satAdd market.no_pool cost
                      yes_pool := market.yes_pool - shares
                      total_yes_shares := satAdd market.total_yes_shares shares }
                  else
                    { market with
                      yes_pool := satAdd market.yes_pool cost
                      no_pool := market.no_pool - shares
                      total_no_shares := satAdd market.total_no_shares shares }
                let market := { market with volume := satAdd market.volume cost }
                let s := { s with markets := mapInsert s.markets market_id market }
                let s := { s with total_volume := satAdd s.total_volume cost }
                let s := update_position s caller market_id is_yes shares true
                let content := "Bought " ++ toString shares ++
                  (if is_yes then " YES" else " NO") ++ " shares"
                let s := (create_feed_item s caller .Trade (some market_id)
                  content ctx.timestamp).1
                (s, .ok (.SharesPurchased cost))
    | .SellShares market_id is_yes shares min_proceeds =>
      match mapGet s.markets market_id with
      | none => (s, .error (.marketNotFound market_id))
      | some market =>
        if market.resolved then (s, .error (.marketResolvedErr market_id))
        else
          let pool_in := if is_yes then market.yes_pool else market.no_pool
          let pool_out := if is_yes then market.no_pool else market.yes_pool
          if shares = 0 then (s, .error .zeroShares)
          else
            match safe_mul_div pool_out shares (wadd pool_in shares) with
            | .error e => (s, .error e)
            | .ok proceeds =>
              if proceeds < min_proceeds then (s, .error .proceedsBelowMin)
              else
                let market :=
                  if is_yes then
                    { market with
                      yes_pool := satAdd market.yes_pool shares
                      no_pool := market.no_pool - proceeds
                      total_yes_shares := market.total_yes_shares - shares }
                  else
                    { market with
                      no_pool := satAdd market.no_pool shares
                      yes_pool := market.yes_pool - proceeds
                      total_no_shares := market.total_no_shares - shares }
                let market := { market with volume := satAdd market.volume proceeds }
                let s := { s with markets := mapInsert s.markets market_id market }
                let s := update_position s caller market_id is_yes shares false
                (s, .ok (.SharesSold proceeds))
    | .ResolveMarket market_id outcome =>
      match mapGet s.markets market_id with
      | none => (s, .error (.marketNotFound market_id))
      | some market =>
        if market.resolved then (s, .error (.marketResolvedErr market_id))
        else if market.creator ≠ caller then (s, .error .notAuthorized)
        else
          let market := { market with resolved := true, outcome := some outcome }
          let s := { s with markets := mapInsert s.markets market_id market }
          let s := update_combos_for_market s market_id outcome
          (s, .ok .MarketResolved)
    | .ClaimWinnings market_id =>
      match mapGet s.markets market_id with
      | none => (s, .error (.marketNotFound market_id))
      | some market =>
        if market.resolved = false then (s, .error (.marketNotResolved market_id))
        else
          match mapGet s.positions (caller, market_id) with
          | none => (s, .error .positionNotFound)
          | some position =>
            if position.claimed then (s, .error .alreadyClaimed)
            else
              match market.outcome with
              | none => (s, .error .outcomeNotSet)
              | some outcome =>
                let winning_shares :=
                  if outcome then position.yes_shares else position.no_shares
                if winning_shares = 0 then (s, .error .noWinningShares)
                else
                  let total_winning_shares :=
                    if market.outcome == some true then market.total_yes_shares
                    else market.total_no_shares
                  let total_pool := satAdd market.yes_pool market.no_pool
                  match safe_mul_div winning_shares total_pool
                      total_winning_shares with
                  | .error e => (s, .error e)
                  | .ok payout =>
                    let position := { position with claimed := true }
                    let s := { s with positions := mapInsert s.positions (caller, market_id) position }
                    (s, .ok (.WinningsClaimed payout))
    | .PlaceLimitOrder market_id is_yes side price amount duration =>
      match mapGet s.markets market_id with
      | none => (s, .error (.marketNotFound market_id))
      | some market =>
        if market.resolved then (s, .error (.marketResolvedErr market_id))
        else
          let order_id := s.next_order_id
          let s := { s with next_order_id := (order_id + 1) % U64MOD }
          let order : LimitOrder :=
            { id := order_id, owner := caller, market_id := market_id,
              is_yes := is_yes, side := side, price := price,
              original_amount := amount, filled_amount := 0,
              duration := duration, created_at := ctx.timestamp,
              status := .Open }
          let s := { s with limit_orders := mapInsert s.limit_orders order_id order }
          (s, .ok (.LimitOrderPlaced order_id))
    | .CancelLimitOrder order_id =>
      match mapGet s.limit_orders order_id with
      | none => (s, .error (.orderNotFound order_id))
      | some order =>
        if order.owner ≠ caller then (s, .error .notAuthorized)
        else if order.status ≠ .Open ∧ order.status ≠ .PartiallyFilled then
          (s, .error (.orderNotCancellable order_id))
        else
          let order := { order with status := .Cancelled }
          let s := { s with limit_orders := mapInsert s.limit_orders order_id order }
          (s, .ok .LimitOrderCancelled)
    | .CreateCombo name legs stake =>
      if legs.length < 2 then (s, .error .tooFewLegs)
      else if legs.length > 10 then (s, .error .tooManyLegs)
      else
        let combo_id := s.next_combo_id
        let s := { s with next_combo_id := (combo_id + 1) % U64MOD }
        match buildComboLegs s legs SCALE with
        | .error e => (s, .error e)
        | .ok (combo_legs, combined_odds) =>
          let potential_payout := wmul stake combined_odds / SCALE
          let combo : Combo :=
            { id := combo_id, owner := caller, name := name,
              legs := combo_legs, stake := stake,
              potential_payout := potential_payout,
              created_at := ctx.timestamp, status := .Active }
          let s := { s with combos := mapInsert s.combos combo_id combo }
          (s, .ok (.ComboCreated combo_id))
    | .CancelCombo combo_id =>
      match mapGet s.combos combo_id with
      | none => (s, .error (.comboNotFound combo_id))
      | some combo =>
        if combo.owner ≠ caller then (s, .error .notAuthorized)
        else if combo.status ≠ .Active then (s, .error (.comboNotActive combo_id))
        else if ¬ combo.legs.all (fun l => !l.resolved) then
          (s, .error .comboLegResolved)
        else
          let combo := { combo with status := .Cancelled }
          let s := { s with combos := mapInsert s.combos combo_id combo }
          (s, .ok .ComboCancelled)
    | .CreateAgent name strategy config initial_capital =>
      let agent_id := s.next_agent_id
      let s := { s with next_agent_id := (agent_id + 1) % U64MOD }
      let agent : TradingAgent :=
        { id := agent_id, owner := caller, name := name, strategy := strategy,
          config := config, capital := initial_capital, total_volume := 0,
          profit_loss := 0, win_rate := 0, total_trades := 0,
          winning_trades := 0, followers_count := 0, is_active := true,
          created_at := ctx.timestamp }
      let s := { s with agents := mapInsert s.agents agent_id agent }
      (s, .ok (.AgentCreated agent_id))
    | .UpdateAgentConfig agent_id config =>
      match mapGet s.agents agent_id with
      | none => (s, .error (.agentNotFound agent_id))
      | some agent =>
        if agent.owner ≠ caller then (s, .error .notAuthorized)
        else
          let agent := { agent with config := config }
          let s := { s with agents := mapInsert s.agents agent_id agent }
          (s, .ok .AgentUpdated)
    | .ToggleAgent agent_id active =>
      match mapGet s.agents agent_id with
      | none => (s, .error (.agentNotFound agent_id))
      | some agent =>
        if agent.owner ≠ caller then (s, .error .notAuthorized)
        else
          let agent := { agent with is_active := active }
          let s := { s with agents := mapInsert s.agents agent_id agent }
          (s, .ok .AgentToggled)
    | .FollowAgent agent_id allocation =>
      match mapGet s.agents agent_id with
      | none => (s, .error (.agentNotFound agent_id))
      | some agent =>
        let follower : AgentFollower :=
          { agent_id := agent_id, follower := caller,
            allocation := allocation, copy_trades := true,
            started_at := ctx.timestamp, total_copied_pnl := 0 }
        let s := { s with agent_followers := mapInsert s.agent_followers (agent_id, caller) follower }
        let agent := { agent with
          followers_count := (agent.followers_count + 1) % U64MOD }
        let s := { s with agents := mapInsert s.agents agent_id agent }
        (s, .ok .AgentFollowed)
    | .UnfollowAgent agent_id =>
      match mapGet s.agents agent_id with
      | none => (s, .error (.agentNotFound agent_id))
      | some agent =>
        let s := { s with agent_followers := mapRemove s.agent_followers (agent_id, caller) }
        let agent := { agent with
          followers_count := agent.followers_count - 1 }
        let s := { s with agents := mapInsert s.agents agent_id agent }
        (s, .ok .AgentUnfollowed)
    | .PostComment market_id content =>
      let r := create_feed_item s caller .Comment (some market_id) content
        ctx.timestamp
      (r.1, .ok (.CommentPosted r.2))
    | .FollowUser user =>
      let following := (mapGet s.user_following caller).getD []
      if ¬ following.contains user then
        let s := { s with user_following := mapInsert s.user_following caller (following ++ [user]) }
        let followers := (mapGet s.user_followers user).getD []
        let s := { s with user_followers := mapInsert s.user_followers user (followers ++ [caller]) }
        (s, .ok .UserFollowed)
      else (s, .ok .UserFollowed)
    | .UnfollowUser user =>
      let following := ((mapGet s.user_following caller).getD []).filter
        (fun u => u ≠ user)
      let s := { s with user_following := mapInsert s.user_following caller following }
      let followers := ((mapGet s.user_followers user).getD []).filter
        (fun u => u ≠ caller)
      let s := { s with user_followers := mapInsert s.user_followers user followers }
      (s, .ok .UserUnfollowed)
    | .LikeFeedItem item_id =>
      match mapGet s.feed_items item_id with
      | none => (s, .error (.feedItemNotFound item_id))
      | some item =>
        let likes := (mapGet s.item_likes item_id).getD []
        if ¬ likes.contains caller then
          let item := { item with likes_count := (item.likes_count + 1) % U64MOD }
          let s := { s with item_likes := mapInsert s.item_likes item_id (likes ++ [caller]) }
          let s := { s with feed_items := mapInsert s.feed_items item_id item }
          (s, .ok .ItemLiked)
        else (s, .ok .ItemLiked)

/-- Follows the claim's words (C8), for refinement comparison with
`buildComboLegs`: each leg's odds is `opposing_pool * SCALE / total_pool`
and the combined odds is updated as `combined * SCALE / leg_odds` for
each leg, all in exact unbounded arithmetic. -/
def specComboOdds (s : MarketState) :
    List ComboLeg → Nat → Option (List Nat × Nat)
  | [], acc => some ([], acc)
  | leg :: rest, acc =>
    match mapGet s.markets leg.market_id with
    | none => none
    | some m =>
      let odds := (if leg.prediction then m.no_pool else m.yes_pool) * SCALE /
        (m.yes_pool + m.no_pool)
      match specComboOdds s rest (acc * SCALE / odds) with
      | none => none
      | some (os, f) => some (odds :: os, f)

/-- Decidable side conditions under which the combo-leg loop performs no
wrapping `u128` arithmetic and never skips an odds update: every leg's
market exists and is unresolved, `yes_pool + no_pool`, `opposing * SCALE`
and `combined * SCALE` stay below `2^128`, and every leg's odds is
positive. -/
def comboLegsOk (s : MarketState) : List ComboLeg → Nat → Bool
  | [], _ => true
  | leg :: rest, acc =>
    match mapGet s.markets leg.market_id with
    | none => false
    | some m =>
      let total := m.yes_pool + m.no_pool
      let opposing := if leg.prediction then m.no_pool else m.yes_pool
      let odds := opposing * SCALE / total
      !m.resolved && decide (total < MOD) && decide (0 < total) &&
      decide (opposing * SCALE < MOD) && decide (0 < odds) &&
      decide (acc * SCALE < MOD) && comboLegsOk s rest (acc * SCALE / odds)

/-- The combo-leg state the claim predicts for a leg with snapshot odds
`o`. -/
def specLegState (leg : ComboLeg) (o : Nat) : ComboLegState :=
  { market_id := leg.market_id, prediction := leg.prediction, odds := o,
    resolved := false, won := none }

/-- Fold a list of `(context, operation)` calls through `exec`. -/
def runOps (s : MarketState) (l : List (Ctx × Operation)) : MarketState :=
  l.foldl (fun st co => (exec st co.1 co.2).1) s

/-- Sum of a share field over all stored positions of one market. -/
def sumShares (f : Position → Nat) :
    List ((Nat × Nat) × Position) → Nat → Nat
  | [], _ => 0
  | e :: rest, mid => (if e.1.2 = mid then f e.2 else 0) + sumShares f rest mid

/-- Sum of `yes_shares` over all stored positions of one market. -/
def sumYes (ps : List ((Nat × Nat) × Position)) (mid : Nat) : Nat :=
  sumShares Position.yes_shares ps mid

/-- Sum of `no_shares` over all stored positions of one market. -/
def sumNo (ps : List ((Nat × Nat) × Position)) (mid : Nat) : Nat :=
  sumShares Position.no_shares ps mid

/-- The zero position record lazily created by `update_position`. -/
def zeroPos (u mid : Nat) : Position :=
  { market_id := mid, owner := u, yes_shares := 0, no_shares := 0,
    claimed := false }

/-- Side conditions on one operation under which the share-accounting
invariant is preserved: id counters do not wrap, share totals do not
saturate, and sells stay within the seller's recorded balance. -/
def opGuard (s : MarketState) (ctx : Ctx) (op : Operation) : Bool :=
  match op with
  | .CreateMarket _ _ _ _ => decide (s.next_market_id + 1 < U64MOD)
  | .BuyShares mid is_yes shares _ =>
    (match mapGet s.markets mid with
    | none => true
    | some m =>
      if is_yes then decide (m.total_yes_shares + shares ≤ UMAX)
      else decide (m.total_no_shares + shares ≤ UMAX))
  | .SellShares mid is_yes shares _ =>
    (match ctx.caller with
    | none => true
    | some u =>
      let pos := (mapGet s.positions (u, mid)).getD (zeroPos u mid)
      if is_yes then decide (shares ≤ pos.yes_shares)
      else decide (shares ≤ pos.no_shares))
  | _ => true

/-- `opGuard` holding along a whole trace. -/
def guardsOk : MarketState → List (Ctx × Operation) → Bool
  | _, [] => true
  | s, co :: rest => opGuard s co.1 co.2 && guardsOk (exec s co.1 co.2).1 rest

/-- Point-write of a seed assignment. -/
def setSeed (σ : Nat → Option Nat) (mid half : Nat) : Nat → Option Nat :=
  fun x => if x = mid then some half else σ x

/-- How one operation transforms the partial seed assignment: an
authenticated `CreateMarket` with nonzero liquidity records the minted
half-liquidity `initial_liquidity / 2` at the freshly allocated id
`s.next_market_id` (the only write this function ever performs); every
other operation, and every failing `CreateMarket`, leaves the
assignment untouched. -/
def stepSeed (s : MarketState) (ctx : Ctx) (op : Operation)
    (σ : Nat → Option Nat) : Nat → Option Nat :=
  match op with
  | .CreateMarket _ _ _ liq =>
    (match ctx.caller with
    | none => σ
    | some _ =>
      if liq = 0 then σ else setSeed σ s.next_market_id (liq / 2))
  | _ => σ

/-- The seed assignment accumulated along a whole trace. -/
def runSeed : MarketState → List (Ctx × Operation) →
    (Nat → Option Nat) → (Nat → Option Nat)
  | _, [], σ => σ
  | s, co :: rest, σ =>
    runSeed (exec s co.1 co.2).1 rest (stepSeed s co.1 co.2 σ)

/-- The seed of market `mid` along a trace from `s`: `some` of half the
`initial_liquidity` of the `CreateMarket` call of the trace that
allocated id `mid`, or `none` if the trace never creates that market
(the all-`none` start is only ever written by `stepSeed` at creation
time). -/
def seedOf (s : MarketState) (l : List (Ctx × Operation)) (mid : Nat) :
    Option Nat :=
  runSeed s l (fun _ => none) mid

/-- The share-accounting invariant relative to a partial seed
assignment `σ`: market and position ids are below the id counter, keys
are duplicate-free, and each stored market has a recorded seed `σ mid =
some k` with its share totals equal to `k` plus the corresponding sum
over stored positions. -/
structure SeedInv (σ : Nat → Option Nat) (s : MarketState) : Prop where
  mids : ∀ p ∈ s.markets, p.1 < s.next_market_id
  pids : ∀ q ∈ s.positions, q.1.2 < s.next_market_id
  mnodup : (s.markets.map Prod.fst).Nodup
  pnodup : (s.positions.map Prod.fst).Nodup
  sums : ∀ p ∈ s.markets, ∃ k, σ p.1 = some k ∧
    p.2.total_yes_shares = k + sumYes s.positions p.1 ∧
    p.2.total_no_shares = k + sumNo s.positions p.1

/-- Two-step trace witnessing the amended C3 invariant. -/
def c3wTrace : List (Ctx × Operation) :=
  [(⟨0, some 1⟩, .CreateMarket "q" [] 1000 1000),
   (⟨0, some 2⟩, .BuyShares 0 true 100 1000)]

/-- The market record after the `c3wTrace` trade. -/
def c3wMarket : Market :=
  { id := 0, creator := 1, question := "q", categories := [],
    end_time := 1000, created_at := 0, yes_pool := 400, no_pool := 625,
    total_yes_shares := 600, total_no_shares := 500, resolved := false,
    outcome := none, volume := 125 }

/-- A small open market with both pools at `p`, totals at `t`, creator 1. -/
def smallMarket (p t : Nat) : Market :=
  { id := 0, creator := 1, question := "q", categories := [],
    end_time := 1000, created_at := 0, yes_pool := p, no_pool := p,
    total_yes_shares := t, total_no_shares := t, resolved := false,
    outcome := none, volume := 0 }

/-- State with one market whose pools are 10/10 (for the C2 rounding
counterexample). -/
def c2State : MarketState :=
  { initState with markets := [(0, smallMarket 10 10)] }

/-- State with one market whose pools are 100/100 (for the C5 clamping
run). -/
def c5State : MarketState :=
  { initState with markets := [(0, smallMarket 100 100)] }

/-- State with one market with `yes_pool = 2^66`, `no_pool = 2^64`
(for the C6 round-trip counterexample). -/
def c6State : MarketState :=
  { initState with markets := [(0,
      { smallMarket 0 0 with
        yes_pool := 2 ^ 66
        no_pool := 2 ^ 64
        total_yes_shares := 2 ^ 66
        total_no_shares := 2 ^ 64 })] }

/-- State after the C6 buy. -/
def c6s1 : MarketState :=
  (exec c6State ⟨0, some 3⟩ (.BuyShares 0 true (2 ^ 65) UMAX)).1

/-- State with market 0 large (pools `6·10^20 / 4·10^20`) and market 1
small (pools 500/500), both open (for the C8 overflow counterexample). -/
def c8State : MarketState :=
  { initState with markets :=
      [(0, { smallMarket 0 0 with
             yes_pool := 600000000000000000000
             no_pool := 400000000000000000000 }),
       (1, smallMarket 500 500)] }

/-- C7 scenario states: create a market with liquidity 1000 (caller 1),
buy 100 YES shares (caller 2), resolve YES (caller 1), claim (caller 2). -/
def c7s1 : MarketState :=
  (exec initState ⟨0, some 1⟩ (.CreateMarket "q" [] 1000 1000)).1

def c7buy : MarketState × Except Err Resp :=
  exec c7s1 ⟨0, some 2⟩ (.BuyShares 0 true 100 1000)

def c7s3 : MarketState :=
  (exec c7buy.1 ⟨0, some 1⟩ (.ResolveMarket 0 true)).1

def c7claim : MarketState × Except Err Resp :=
  exec c7s3 ⟨0, some 2⟩ (.ClaimWinnings 0)

/-- C3 counterexample run: a single `CreateMarket` with liquidity 1000. -/
def c3run : MarketState :=
  (exec initState ⟨0, some 1⟩ (.CreateMarket "q" [] 1000 1000)).1

/-- A resolved YES market with pools 400/625 and 600 total YES shares. -/
def c10Market : Market :=
  { smallMarket 0 600 with
    yes_pool := 400
    no_pool := 625
    resolved := true
    outcome := some true }

/-- An unclaimed position of owner 2 with 100 YES shares in market 0. -/
def c10Pos : Position :=
  { market_id := 0, owner := 2, yes_shares := 100, no_shares := 0,
    claimed := false }

/-- Post-resolution state used to exercise `ClaimWinnings`. -/
def c10State : MarketState :=
  { initState with
    markets := [(0, c10Market)]
    positions := [((2, 0), c10Pos)]
    next_market_id := 1 }

/-- State with one fresh 500/500 market (used to witness the amended buy
and round-trip theorems). -/
def c2wState : MarketState :=
  { initState with markets := [(0, smallMarket 500 500)] }

/-- Two open 500/500 markets (for the combo witness). -/
def c8wState : MarketState :=
  { initState with
    markets := [(0, smallMarket 500 500), (1, smallMarket 500 500)]
    next_market_id := 2 }

/-- A 2-leg active combo predicting YES on markets 0 and 1. -/
def c9Combo : Combo :=
  { id := 0, owner := 2, name := "c",
    legs := [{ market_id := 0, prediction := true,
               odds := 500000000000000000, resolved := false, won := none },
             { market_id := 1, prediction := true,
               odds := 500000000000000000, resolved := false, won := none }],
    stake := 100, potential_payout := 400, created_at := 0,
    status := .Active }

/-- State with two open 500/500 markets and the active combo `c9Combo`. -/
def c9State : MarketState :=
  { initState with
    markets := [(0, smallMarket 500 500), (1, smallMarket 500 500)]
    next_market_id := 2
    combos := [(0, c9Combo)]
    next_combo_id := 1 }

/-- Auxiliary: `(x / c) * y ≤ (x * y) / c`. -/
theorem div_mul_le (x y c : Nat) : x / c * y ≤ x * y / c := by
  rcases Nat.eq_zero_or_pos c with h | h
  · subst h; simp
  · rw [Nat.le_div_iff_mul_le h]
    calc x / c * y * c = x / c * c * y := by ring
      _ ≤ x * y := Nat.mul_le_mul_right y (Nat.div_mul_le_self x c)

/-- Auxiliary: exact Euclidean decomposition of a floored product-quotient:
`x*y/c = (x/c)*y + (x%c)*y/c`. -/
theorem mul_div_decomp (x y c : Nat) (hc : 0 < c) :
    x * y / c = x / c * y + x % c * y / c := by
  have h1 : x * y = x % c * y + c * (x / c * y) := by
    conv_lhs => rw [← Nat.div_add_mod x c]
    ring
  rw [h1, Nat.add_mul_div_left _ _ hc, Nat.add_comm]

theorem wadd_eq_add (x y : Nat) (h : x + y < MOD) : wadd x y = x + y :=
  Nat.mod_eq_of_lt h

deriving instance DecidableEq for Except

/-- Helper: `safe_mul_div` is exact whenever the result fits and the
remainder product `(a % c)*(b % c)` fits (no approximation fallback). -/
theorem safe_mul_div_exact_aux (a b c : Nat) (hc : c ≠ 0)
    (hfit : a * b / c < MOD) (hrem : a % c * (b % c) < MOD) :
    safe_mul_div a b c = .ok (a * b / c) := by
  have hcpos : 0 < c := Nat.pos_of_ne_zero hc
  unfold safe_mul_div
  rw [if_neg hc]
  by_cases hfast : a * b < MOD
  · rw [if_pos hfast]
  · rw [if_neg hfast]
    have hkey : a * b / c = a / c * b + a % c * b / c := mul_div_decomp a b c hcpos
    have hq : a / c * b < MOD :=
      lt_of_le_of_lt (le_trans (Nat.le_add_right _ _) hkey.ge) hfit
    by_cases hrb : a % c * b < MOD
    · simp only [if_pos hq, if_pos hrb]
      have hsum : a / c * b + a % c * b / c < MOD := hkey ▸ hfit
      rw [wadd_eq_add _ _ hsum, ← hkey]
    ·
      have hinner : a % c * b / c = a % c * (b / c) + a % c * (b % c) / c :=
        by
          have h1 : a % c * b = a % c * (b % c) + c * (a % c * (b / c)) := by
            conv_lhs => rw [show b = c * (b / c) + b % c from (Nat.div_add_mod b c).symm]
            ring
          rw [h1, Nat.add_mul_div_left _ _ hcpos, Nat.add_comm]
      have hrbc : a % c * b / c ≤ a * b / c :=
        Nat.div_le_div_right (Nat.mul_le_mul_right b (Nat.mod_le a c))
      have hsub1lt : a % c * (b / c) < MOD :=
        lt_of_le_of_lt
          (le_trans (Nat.le_add_right _ _) hinner.ge)
          (lt_of_le_of_lt hrbc hfit)
      simp only [if_pos hq, if_neg hrb, if_pos hsub1lt, if_pos hrem]
      have hsum2 : a % c * (b / c) + a % c * (b % c) / c < MOD :=
        hinner ▸ lt_of_le_of_lt hrbc hfit
      rw [wadd_eq_add _ _ hsum2, ← hinner]
      have hsum : a / c * b + a % c * b / c < MOD := hkey ▸ hfit
      rw [wadd_eq_add _ _ hsum, ← hkey]

/-- C1 (amended): whenever `c > 0`, the true floored quotient `a*b/c`
fits in `u128`, and the remainder product `(a % c) * (b % c)` also fits in
`u128` (so the lossy scaled-approximation fallback is never reached),
`safe_mul_div` returns exactly `⌊a*b/c⌋` — in particular on inputs where
`a * b` alone overflows `u128`. -/
theorem safe_mul_div_exact (a b c : Nat) (hc : c ≠ 0)
    (hfit : a * b / c < MOD) (hrem : a % c * (b % c) < MOD) :
    safe_mul_div a b c = .ok (a * b / c) :=
  safe_mul_div_exact_aux a b c hc hfit hrem

/-- Witness for the amended C1 theorem at `a = 2^64`, `b = 2^65`,
`c = 2^65` — a case where `a * b` overflows `u128` but the result is
computed exactly. -/
theorem safe_mul_div_exact_witness :
    (2 ^ 65 ≠ 0 ∧ 2 ^ 64 * 2 ^ 65 / 2 ^ 65 < MOD ∧
      2 ^ 64 % 2 ^ 65 * (2 ^ 65 % 2 ^ 65) < MOD) ∧
    safe_mul_div (2 ^ 64) (2 ^ 65) (2 ^ 65) = .ok (2 ^ 64 * 2 ^ 65 / 2 ^ 65) :=
  ⟨⟨by decide, by decide, by decide⟩,
    safe_mul_div_exact (2 ^ 64) (2 ^ 65) (2 ^ 65)
      (by decide) (by decide) (by decide)⟩

/-- C1 counterexample: at `a = b = 2^65`, `c = 2^66` the true quotient
`2^64` fits in `u128`, yet `safe_mul_div` reaches the scaled-approximation
fallback and returns `18645609145929171145 ≠ 2^64`. -/
theorem safe_mul_div_not_exact :
    2 ^ 65 * 2 ^ 65 / 2 ^ 66 < MOD ∧
    safe_mul_div (2 ^ 65) (2 ^ 65) (2 ^ 66) ≠
      .ok (2 ^ 65 * 2 ^ 65 / 2 ^ 66) := by
  constructor
  · decide
  · decide

/-- C2 counterexample: on a 10/10 market, buying 3 YES shares costs
`⌊10·3/7⌋ = 4` and leaves pools 7/14, so the product `yes_pool · no_pool`
drops from 100 to 98 — it is not non-decreasing across a successful buy. -/
theorem buy_product_can_decrease :
    (exec c2State ⟨0, some 2⟩ (.BuyShares 0 true 3 100)).2 =
      .ok (.SharesPurchased 4) ∧
    mapGet (exec c2State ⟨0, some 2⟩ (.BuyShares 0 true 3 100)).1.markets 0 =
      some { id := 0, creator := 1, question := "q", categories := [],
             end_time := 1000, created_at := 0, yes_pool := 7, no_pool := 14,
             total_yes_shares := 13, total_no_shares := 10, resolved := false,
             outcome := none, volume := 4 } ∧
    7 * 14 < 10 * 10 := by
  refine ⟨by decide, by decide, by decide⟩

/-- C3 counterexample: immediately after `CreateMarket` with liquidity
1000 the market's `total_yes_shares` is seeded at 500 while no position
exists, so the sum of positions' `yes_shares` is 0 ≠ 500. -/
theorem total_shares_not_sum_of_positions :
    mapGet c3run.markets 0 =
      some { id := 0, creator := 1, question := "q", categories := [],
             end_time := 1000, created_at := 0, yes_pool := 500,
             no_pool := 500, total_yes_shares := 500, total_no_shares := 500,
             resolved := false, outcome := none, volume := 0 } ∧
    sumYes c3run.positions 0 = 0 ∧ (500 : Nat) ≠ 0 := by
  refine ⟨by decide, by decide, by decide⟩

/-- C4 failing input: `CreateMarket` with `initial_liquidity = 0` returns
an error, yet `next_market_id` has been incremented from 0 to 1 and is
not rolled back; likewise a `CreateCombo` whose first leg references a
missing market fails after `next_combo_id` was already bumped. -/
theorem failed_create_bumps_counters :
    (exec initState ⟨0, some 1⟩ (.CreateMarket "q" [] 100 0)).2 =
      .error .zeroLiquidity ∧
    (exec initState ⟨0, some 1⟩ (.CreateMarket "q" [] 100 0)).1.next_market_id
      = 1 ∧
    initState.next_market_id = 0 ∧
    (exec initState ⟨0, some 1⟩
        (.CreateCombo "c" [⟨0, true⟩, ⟨1, true⟩] 5)).2 =
      .error (.marketNotFound 0) ∧
    (exec initState ⟨0, some 1⟩
        (.CreateCombo "c" [⟨0, true⟩, ⟨1, true⟩] 5)).1.next_combo_id = 1 ∧
    initState.next_combo_id = 0 := by
  refine ⟨by decide, by decide, by decide, by decide, by decide, by decide⟩

/-- C5 failing input: owner 9 holds no position in market 0 (pools
100/100) yet `SellShares` of 5 YES shares succeeds with proceeds
`⌊100·5/105⌋ = 4`, mutates the pools, and silently clamps the freshly
created position at zero shares instead of failing. -/
theorem sell_beyond_balance_silently_clamps :
    (exec c5State ⟨0, some 9⟩ (.SellShares 0 true 5 0)).2 =
      .ok (.SharesSold 4) ∧
    mapGet (exec c5State ⟨0, some 9⟩ (.SellShares 0 true 5 0)).1.positions
        (9, 0) =
      some { market_id := 0, owner := 9, yes_shares := 0, no_shares := 0,
             claimed := false } ∧
    mapGet (exec c5State ⟨0, some 9⟩ (.SellShares 0 true 5 0)).1.markets 0 =
      some { id := 0, creator := 1, question := "q", categories := [],
             end_time := 1000, created_at := 0, yes_pool := 105, no_pool := 96,
             total_yes_shares := 95, total_no_shares := 100, resolved := false,
             outcome := none, volume := 4 } := by
  refine ⟨by decide, by decide, by decide⟩

/-- C6 counterexample: on a market with `yes_pool = 2^66`,
`no_pool = 2^64`, buying `2^65` YES shares costs exactly `2^64`, but the
immediate sale of the same `2^65` shares routes `safe_mul_div` through its
scaled-approximation fallback and pays `18645609145929171145 > 2^64` — a
strict profit on a zero-time round trip. -/
theorem round_trip_can_profit :
    (exec c6State ⟨0, some 3⟩ (.BuyShares 0 true (2 ^ 65) UMAX)).2 =
      .ok (.SharesPurchased (2 ^ 64)) ∧
    (exec c6s1 ⟨0, some 3⟩ (.SellShares 0 true (2 ^ 65) 0)).2 =
      .ok (.SharesSold 18645609145929171145) ∧
    2 ^ 64 < 18645609145929171145 := by
  refine ⟨by decide, by decide, by decide⟩

/-- C7 scenario, confirmed end to end: `CreateMarket(liquidity 1000)`
seeds 500/500 pools; buying 100 YES shares costs exactly 125 and leaves
`no_pool = 625`, `yes_pool = 400`, `total_yes_shares = 600`,
`volume = 125`; after resolving YES, the buyer holding 100 YES shares is
paid `⌊100·1025/600⌋ = 170`. -/
theorem scenario_create_buy_resolve_claim :
    mapGet c7s1.markets 0 =
      some { id := 0, creator := 1, question := "q", categories := [],
             end_time := 1000, created_at := 0, yes_pool := 500,
             no_pool := 500, total_yes_shares := 500, total_no_shares := 500,
             resolved := false, outcome := none, volume := 0 } ∧
    c7buy.2 = .ok (.SharesPurchased 125) ∧
    mapGet c7buy.1.markets 0 =
      some { id := 0, creator := 1, question := "q", categories := [],
             end_time := 1000, created_at := 0, yes_pool := 400,
             no_pool := 625, total_yes_shares := 600, total_no_shares := 500,
             resolved := false, outcome := none, volume := 125 } ∧
    mapGet c7buy.1.positions (2, 0) =
      some { market_id := 0, owner := 2, yes_shares := 100, no_shares := 0,
             claimed := false } ∧
    (mapGet c7s3.markets 0).map Market.resolved = some true ∧
    (mapGet c7s3.markets 0).map Market.outcome = some (some true) ∧
    c7claim.2 = .ok (.WinningsClaimed 170) := by
  refine ⟨by decide, by decide, by decide, by decide, by decide, by decide,
    by decide⟩

/-- C8 counterexample: with market 0 holding pools
`6·10^20 / 4·10^20`, the first leg's stored odds are computed with a
wrapping `u128` product `no_pool · 10^18 mod 2^128`, giving
`59717633079061536` instead of the claimed
`opposing_pool · SCALE / total_pool = 4·10^17`. -/
theorem combo_leg_odds_overflow :
    (mapGet (exec c8State ⟨0, some 1⟩
        (.CreateCombo "c" [⟨0, true⟩, ⟨1, true⟩] 1)).1.combos 0).map
      (fun c => c.legs.map ComboLegState.odds) =
      some [59717633079061536, 500000000000000000] ∧
    (59717633079061536 : Nat) ≠ 400000000000000000000 * SCALE /
      (600000000000000000000 + 400000000000000000000) := by
  refine ⟨by decide, by decide⟩

theorem mapGet_insert_self {K V : Type} [DecidableEq K]
    (l : List (K × V)) (k : K) (v : V) :
    mapGet (mapInsert l k v) k = some v := by
  induction l with
  | nil => simp [mapInsert, mapGet]
  | cons e rest ih =>
    by_cases h : e.1 = k
    · simp [mapInsert, h, mapGet]
    · simp [mapInsert, h, mapGet, ih]

theorem mapGet_insert_ne {K V : Type} [DecidableEq K]
    (l : List (K × V)) (k k' : K) (v : V) (h : k' ≠ k) :
    mapGet (mapInsert l k v) k' = mapGet l k' := by
  induction l with
  | nil =>
    simp only [mapInsert, mapGet]
    rw [if_neg (fun hh => h hh.symm)]
  | cons e rest ih =>
    by_cases he : e.1 = k
    · simp only [mapInsert, if_pos he, mapGet]
      rw [if_neg (fun hh => h hh.symm)]
      rw [if_neg (fun hh : e.1 = k' => h (he.symm.trans hh).symm)]
    · simp only [mapInsert, if_neg he, mapGet, ih]

/-- C10: a successful `ClaimWinnings` only flips the claimant's
`claimed` flag from `false` to `true`: the whole post-state equals the
pre-state with exactly that one position re-inserted, the market record
(pools, totals, volume, resolution) is untouched, every other position is
unchanged, and the payout was computed by `safe_mul_div` from the full
post-resolution pool `yes_pool + no_pool`. -/
theorem claim_winnings_frame
    (s : MarketState) (ctx : Ctx) (u mid : Nat) (m : Market) (p : Position)
    (b : Bool) (pay : Nat)
    (hcaller : ctx.caller = some u)
    (hm : mapGet s.markets mid = some m)
    (hres : m.resolved = true)
    (hout : m.outcome = some b)
    (hp : mapGet s.positions (u, mid) = some p)
    (hcl : p.claimed = false)
    (hw : (if b then p.yes_shares else p.no_shares) ≠ 0)
    (hpay : safe_mul_div (if b then p.yes_shares else p.no_shares)
        (satAdd m.yes_pool m.no_pool)
        (if b then m.total_yes_shares else m.total_no_shares) = .ok pay) :
    exec s ctx (.ClaimWinnings mid) =
      ({ s with positions := mapInsert s.positions (u, mid) { p with claimed := true } },
        .ok (.WinningsClaimed pay)) ∧
    (exec s ctx (.ClaimWinnings mid)).1.markets = s.markets ∧
    mapGet (exec s ctx (.ClaimWinnings mid)).1.positions (u, mid) =
      some { p with claimed := true } ∧
    ∀ k, k ≠ (u, mid) →
      mapGet (exec s ctx (.ClaimWinnings mid)).1.positions k =
        mapGet s.positions k := by
  have hmain : exec s ctx (.ClaimWinnings mid) =
      ({ s with positions := mapInsert s.positions (u, mid) { p with claimed := true } },
        .ok (.WinningsClaimed pay)) := by
    cases b with
    | true =>
      simp only [exec, hcaller, hm, hres, hout, hp, hcl]
      simp only [if_true, Bool.false_eq_true, if_false, reduceCtorEq]
      simp only [if_neg (by simpa using hw)]
      simp only [show ((some true : Option Bool) == some true) = true from rfl]
      simp only [if_true]
      have hokpay : safe_mul_div p.yes_shares (satAdd m.yes_pool m.no_pool)
          m.total_yes_shares = .ok pay := by simpa using hpay
      simp only [hokpay]
    | false =>
      simp only [exec, hcaller, hm, hres, hout, hp, hcl]
      simp only [if_true, Bool.false_eq_true, if_false, reduceCtorEq]
      simp only [if_neg (by simpa using hw)]
      simp only [show ((some false : Option Bool) == some true) = false from rfl]
      simp only [if_false, Bool.false_eq_true]
      have hokpay : safe_mul_div p.no_shares (satAdd m.yes_pool m.no_pool)
          m.total_no_shares = .ok pay := by simpa using hpay
      simp only [hokpay]
  refine ⟨hmain, ?_, ?_, ?_⟩
  · rw [hmain]
  · rw [hmain]; exact mapGet_insert_self _ _ _
  · intro k hk; rw [hmain]; exact mapGet_insert_ne _ _ _ _ hk

/-- Witness for C10 on the concrete post-resolution state `c10State`:
owner 2 claims 170 and only that position's `claimed` flag changes. -/
theorem claim_winnings_frame_witness :
    mapGet c10State.markets 0 = some c10Market ∧
    mapGet c10State.positions (2, 0) = some c10Pos ∧
    (exec c10State ⟨0, some 2⟩ (.ClaimWinnings 0)).2 =
      .ok (.WinningsClaimed 170) ∧
    (exec c10State ⟨0, some 2⟩ (.ClaimWinnings 0)).1.markets =
      c10State.markets ∧
    mapGet (exec c10State ⟨0, some 2⟩ (.ClaimWinnings 0)).1.positions (2, 0) =
      some { c10Pos with claimed := true } :=
  have h := claim_winnings_frame c10State ⟨0, some 2⟩ 2 0 c10Market c10Pos
    true 170 rfl (by decide) (by decide) (by decide) (by decide) (by decide)
    (by decide) (by decide)
  ⟨by decide, by decide, by rw [h.1], h.2.1, h.2.2.1⟩

theorem satAdd_eq (x y : Nat) (h : x + y ≤ UMAX) : satAdd x y = x + y :=
  min_eq_left h

/-- Arithmetic core of the buy: with `cost = ⌊pi·s/(po−s)⌋`, the product
`(pi + cost)·(po − s)` never exceeds `pi·po` and falls short of it by
less than `po − s`. -/
theorem buy_cost_bounds (p q s : Nat) (h1 : 0 < s) (h2 : s < q) :
    (p + p * s / (q - s)) * (q - s) ≤ p * q ∧
    p * q < (p + p * s / (q - s)) * (q - s) + (q - s) := by
  have hd : 0 < q - s := Nat.sub_pos_of_lt h2
  have hds : q - s + s = q := Nat.sub_add_cancel h2.le
  constructor
  · calc (p + p * s / (q - s)) * (q - s)
        = p * (q - s) + p * s / (q - s) * (q - s) := by ring
      _ ≤ p * (q - s) + p * s :=
        Nat.add_le_add_left (Nat.div_mul_le_self _ _) _
      _ = p * (q - s + s) := by ring
      _ = p * q := by rw [hds]
  · have hmod : p * s < p * s / (q - s) * (q - s) + (q - s) := by
      conv_lhs => rw [← Nat.div_add_mod (p * s) (q - s)]
      exact Nat.add_lt_add_of_le_of_lt (Nat.mul_comm _ _).le (Nat.mod_lt _ hd)
    calc p * q = p * (q - s + s) := by rw [hds]
      _ = p * (q - s) + p * s := by ring
      _ < p * (q - s) + (p * s / (q - s) * (q - s) + (q - s)) :=
        Nat.add_lt_add_left hmod _
      _ = (p + p * s / (q - s)) * (q - s) + (q - s) := by ring

/-- C2 (amended): across any successful `BuyShares` whose cost is computed
on an exact `safe_mul_div` path (no scaled-approximation fallback) and
whose credited pool does not saturate, the pool product `yes_pool·no_pool`
never increases, and decreases by less than `pool_out − shares` (the floor
rounding deficit) — it is not non-decreasing as claimed. -/
theorem buy_product_bounds
    (s : MarketState) (ctx : Ctx) (u mid : Nat) (m : Market)
    (is_yes : Bool) (shares max_cost pool_in pool_out cost : Nat)
    (hcaller : ctx.caller = some u)
    (hm : mapGet s.markets mid = some m)
    (hres : m.resolved = false)
    (hend : ctx.timestamp ≤ m.end_time)
    (hpi : pool_in = if is_yes then m.no_pool else m.yes_pool)
    (hpo : pool_out = if is_yes then m.yes_pool else m.no_pool)
    (hs0 : 0 < shares)
    (hlt : shares < pool_out)
    (hexact : pool_in % (pool_out - shares) *
      (shares % (pool_out - shares)) < MOD)
    (hfit : pool_in * shares / (pool_out - shares) < MOD)
    (hcost : cost = pool_in * shares / (pool_out - shares))
    (hmax : cost ≤ max_cost)
    (hsat : pool_in + cost ≤ UMAX) :
    (exec s ctx (.BuyShares mid is_yes shares max_cost)).2 =
      .ok (.SharesPurchased cost) ∧
    ∀ m', mapGet (exec s ctx (.BuyShares mid is_yes shares max_cost)).1.markets
        mid = some m' →
      m'.yes_pool * m'.no_pool ≤ m.yes_pool * m.no_pool ∧
      m.yes_pool * m.no_pool < m'.yes_pool * m'.no_pool + (pool_out - shares) := by
  have hs0' : ¬ shares = 0 := Nat.pos_iff_ne_zero.mp hs0
  have hsmd : safe_mul_div pool_in shares (pool_out - shares) = .ok cost :=
    hcost ▸ safe_mul_div_exact_aux _ _ _ (Nat.sub_ne_zero_of_lt hlt) hfit hexact
  cases is_yes with
  | true =>
    have hpi' : pool_in = m.no_pool := by simpa using hpi
    have hpo' : pool_out = m.yes_pool := by simpa using hpo
    subst hpi' hpo'
    refine ⟨?_, ?_⟩
    · simp only [exec, hcaller, hm, hres, Bool.false_eq_true, if_false,
        if_neg (Nat.not_lt.mpr hend), if_true, if_neg hs0',
        if_neg (Nat.not_le.mpr hlt), hsmd, if_neg (Nat.not_lt.mpr hmax),
        update_position, create_feed_item]
    · intro m' hm'
      simp only [exec, hcaller, hm, hres, Bool.false_eq_true, if_false,
        if_neg (Nat.not_lt.mpr hend), if_true, if_neg hs0',
        if_neg (Nat.not_le.mpr hlt), hsmd, if_neg (Nat.not_lt.mpr hmax),
        update_position, create_feed_item, mapGet_insert_self] at hm'
      cases hm'
      simp only [satAdd_eq _ _ hsat]
      have hb := buy_cost_bounds m.no_pool m.yes_pool shares hs0 hlt
      rw [← hcost] at hb
      constructor
      · calc (m.yes_pool - shares) * (m.no_pool + cost)
            = (m.no_pool + cost) * (m.yes_pool - shares) := Nat.mul_comm _ _
          _ ≤ m.no_pool * m.yes_pool := hb.1
          _ = m.yes_pool * m.no_pool := Nat.mul_comm _ _
      · calc m.yes_pool * m.no_pool = m.no_pool * m.yes_pool := Nat.mul_comm _ _
          _ < (m.no_pool + cost) * (m.yes_pool - shares) + (m.yes_pool - shares) :=
            hb.2
          _ = (m.yes_pool - shares) * (m.no_pool + cost) + (m.yes_pool - shares) := by
            rw [Nat.mul_comm]
  | false =>
    have hpi' : pool_in = m.yes_pool := by simpa using hpi
    have hpo' : pool_out = m.no_pool := by simpa using hpo
    subst hpi' hpo'
    refine ⟨?_, ?_⟩
    · simp only [exec, hcaller, hm, hres, Bool.false_eq_true, if_false,
        if_neg (Nat.not_lt.mpr hend), if_true, if_neg hs0',
        if_neg (Nat.not_le.mpr hlt), hsmd, if_neg (Nat.not_lt.mpr hmax),
        update_position, create_feed_item]
    · intro m' hm'
      simp only [exec, hcaller, hm, hres, Bool.false_eq_true, if_false,
        if_neg (Nat.not_lt.mpr hend), if_true, if_neg hs0',
        if_neg (Nat.not_le.mpr hlt), hsmd, if_neg (Nat.not_lt.mpr hmax),
        update_position, create_feed_item, mapGet_insert_self] at hm'
      cases hm'
      simp only [satAdd_eq _ _ hsat]
      have hb := buy_cost_bounds m.yes_pool m.no_pool shares hs0 hlt
      rw [← hcost] at hb
      exact ⟨hb.1, hb.2⟩

/-- Witness for the amended C2 theorem: buying 100 YES shares on a
500/500 market costs 125 and moves the pool product from 250000 to
250000 (exactly preserved here), within the proved bounds. -/
theorem buy_product_bounds_witness :
    (0 < 100 ∧ 100 < 500) ∧
    (exec c2wState ⟨0, some 2⟩ (.BuyShares 0 true 100 125)).2 =
      .ok (.SharesPurchased 125) ∧
    400 * 625 ≤ 500 * 500 ∧ 500 * 500 < 400 * 625 + (500 - 100) :=
  have h := buy_product_bounds c2wState ⟨0, some 2⟩ 2 0 (smallMarket 500 500)
    true 100 125 500 500 125 rfl (by decide) rfl (by decide) rfl rfl
    (by decide) (by decide) (by decide) (by decide) (by decide) (by decide)
    (by decide)
  have h2 := h.2
    { smallMarket 500 500 with
      yes_pool := 400
      no_pool := 625
      total_yes_shares := 600
      volume := 125 } (by decide)
  ⟨⟨by decide, by decide⟩, h.1, h2.1, h2.2⟩

/-- Arithmetic core of the round trip: selling the `s` freshly bought
shares back into the moved pool yields a floored quotient no larger than
the buy cost. -/
theorem round_trip_core (N Y s : Nat) (h1 : 0 < s) (h2 : s < Y) :
    (N + N * s / (Y - s)) * s / Y ≤ N * s / (Y - s) := by
  have hd : 0 < Y - s := Nat.sub_pos_of_lt h2
  have hY : 0 < Y := lt_trans h1 h2
  have hfl : N * s < (N * s / (Y - s) + 1) * (Y - s) := by
    conv_lhs => rw [← Nat.div_add_mod (N * s) (Y - s)]
    calc (Y - s) * (N * s / (Y - s)) + N * s % (Y - s)
        < (Y - s) * (N * s / (Y - s)) + (Y - s) :=
          Nat.add_lt_add_left (Nat.mod_lt _ hd) _
      _ = (N * s / (Y - s) + 1) * (Y - s) := by ring
  have hkey : (N + N * s / (Y - s)) * s < (N * s / (Y - s) + 1) * Y := by
    have h3 : N * s + N * s / (Y - s) * s <
        (N * s / (Y - s) + 1) * (Y - s) + (N * s / (Y - s) + 1) * s :=
      Nat.add_lt_add_of_lt_of_le hfl
        (Nat.mul_le_mul_right s (Nat.le_succ _))
    calc (N + N * s / (Y - s)) * s = N * s + N * s / (Y - s) * s := by ring
      _ < (N * s / (Y - s) + 1) * (Y - s) + (N * s / (Y - s) + 1) * s := h3
      _ = (N * s / (Y - s) + 1) * ((Y - s) + s) := by ring
      _ = (N * s / (Y - s) + 1) * Y := by rw [Nat.sub_add_cancel h2.le]
  exact Nat.lt_succ_iff.mp ((Nat.div_lt_iff_lt_mul hY).mpr hkey)

/-- C6 (amended): for every unresolved, unended market and every
`0 < s < pool_out`, buying `s` shares of one side (with permissive
`max_cost`) and immediately selling the same `s` shares back (with
`min_proceeds = 0`) yields proceeds ≤ the original cost, provided both
`safe_mul_div` computations stay on exact paths (no scaled-approximation
fallback) and the credited pool does not saturate. -/
theorem round_trip_no_gain
    (s : MarketState) (ctx ctx2 : Ctx) (u u2 mid : Nat) (m : Market)
    (is_yes : Bool) (shares pool_in pool_out cost proceeds : Nat)
    (hcaller : ctx.caller = some u)
    (hcaller2 : ctx2.caller = some u2)
    (hm : mapGet s.markets mid = some m)
    (hres : m.resolved = false)
    (hend : ctx.timestamp ≤ m.end_time)
    (hpi : pool_in = if is_yes then m.no_pool else m.yes_pool)
    (hpo : pool_out = if is_yes then m.yes_pool else m.no_pool)
    (hs0 : 0 < shares)
    (hlt : shares < pool_out)
    (hexact1 : pool_in % (pool_out - shares) *
      (shares % (pool_out - shares)) < MOD)
    (hfit1 : pool_in * shares / (pool_out - shares) < MOD)
    (hcost : cost = pool_in * shares / (pool_out - shares))
    (hsat : pool_in + cost ≤ UMAX)
    (hpoMOD : pool_out < MOD)
    (hexact2 : (pool_in + cost) % pool_out * (shares % pool_out) < MOD)
    (hfit2 : (pool_in + cost) * shares / pool_out < MOD)
    (hproc : proceeds = (pool_in + cost) * shares / pool_out) :
    (exec s ctx (.BuyShares mid is_yes shares UMAX)).2 =
      .ok (.SharesPurchased cost) ∧
    (exec (exec s ctx (.BuyShares mid is_yes shares UMAX)).1 ctx2
        (.SellShares mid is_yes shares 0)).2 = .ok (.SharesSold proceeds) ∧
    proceeds ≤ cost := by
  have hs0' : ¬ shares = 0 := Nat.pos_iff_ne_zero.mp hs0
  have hsmd1 : safe_mul_div pool_in shares (pool_out - shares) = .ok cost :=
    hcost ▸ safe_mul_div_exact_aux _ _ _ (Nat.sub_ne_zero_of_lt hlt) hfit1 hexact1
  have hpo0 : pool_out ≠ 0 := Nat.pos_iff_ne_zero.mp (lt_trans hs0 hlt)
  have hsmd2 : safe_mul_div (pool_in + cost) shares pool_out = .ok proceeds :=
    hproc ▸ safe_mul_div_exact_aux _ _ _ hpo0 hfit2 hexact2
  have hmaxle : cost ≤ UMAX := Nat.le_sub_one_of_lt (hcost ▸ hfit1)
  have hwadd : wadd (pool_out - shares) shares = pool_out := by
    rw [wadd_eq_add _ _ (by rw [Nat.sub_add_cancel hlt.le]; exact hpoMOD),
      Nat.sub_add_cancel hlt.le]
  have hle : proceeds ≤ cost := by
    rw [hproc, hcost]
    exact round_trip_core pool_in pool_out shares hs0 hlt
  cases is_yes with
  | true =>
    have hpi' : pool_in = m.no_pool := by simpa using hpi
    have hpo' : pool_out = m.yes_pool := by simpa using hpo
    subst hpi' hpo'
    refine ⟨?_, ?_, hle⟩
    · simp only [exec, hcaller, hm, hres, Bool.false_eq_true, if_false,
        if_neg (Nat.not_lt.mpr hend), if_true, if_neg hs0',
        if_neg (Nat.not_le.mpr hlt), hsmd1, if_neg (Nat.not_lt.mpr hmaxle),
        update_position, create_feed_item]
    · simp only [exec, hcaller, hcaller2, hm, hres, Bool.false_eq_true,
        if_false, if_neg (Nat.not_lt.mpr hend), if_true, if_neg hs0',
        if_neg (Nat.not_le.mpr hlt), hsmd1, if_neg (Nat.not_lt.mpr hmaxle),
        update_position, create_feed_item, mapGet_insert_self,
        satAdd_eq _ _ hsat, hwadd, hsmd2, if_neg (Nat.not_lt_zero proceeds)]
  | false =>
    have hpi' : pool_in = m.yes_pool := by simpa using hpi
    have hpo' : pool_out = m.no_pool := by simpa using hpo
    subst hpi' hpo'
    refine ⟨?_, ?_, hle⟩
    · simp only [exec, hcaller, hm, hres, Bool.false_eq_true, if_false,
        if_neg (Nat.not_lt.mpr hend), if_true, if_neg hs0',
        if_neg (Nat.not_le.mpr hlt), hsmd1, if_neg (Nat.not_lt.mpr hmaxle),
        update_position, create_feed_item]
    · simp only [exec, hcaller, hcaller2, hm, hres, Bool.false_eq_true,
        if_false, if_neg (Nat.not_lt.mpr hend), if_true, if_neg hs0',
        if_neg (Nat.not_le.mpr hlt), hsmd1, if_neg (Nat.not_lt.mpr hmaxle),
        update_position, create_feed_item, mapGet_insert_self,
        satAdd_eq _ _ hsat, hwadd, hsmd2, if_neg (Nat.not_lt_zero proceeds)]

/-- Witness for the amended C6 theorem: on a 500/500 market, buying then
immediately selling 100 YES shares costs 125 and returns exactly 125. -/
theorem round_trip_no_gain_witness :
    (0 < 100 ∧ 100 < 500) ∧
    (exec c2wState ⟨0, some 2⟩ (.BuyShares 0 true 100 UMAX)).2 =
      .ok (.SharesPurchased 125) ∧
    (exec (exec c2wState ⟨0, some 2⟩ (.BuyShares 0 true 100 UMAX)).1
        ⟨0, some 2⟩ (.SellShares 0 true 100 0)).2 = .ok (.SharesSold 125) ∧
    (125 : Nat) ≤ 125 :=
  have h := round_trip_no_gain c2wState ⟨0, some 2⟩ ⟨0, some 2⟩ 2 2 0
    (smallMarket 500 500) true 100 500 500 125 125 rfl rfl (by decide) rfl
    (by decide) rfl rfl (by decide) (by decide) (by decide) (by decide)
    (by decide) (by decide) (by decide) (by decide) (by decide) (by decide)
  ⟨⟨by decide, by decide⟩, h.1, h.2.1, h.2.2⟩

theorem cascadeIter_lookup_ne (mid : Nat) (o : Bool)
    (cs : List (Nat × Combo)) (j cid : Nat) (h : j ≠ cid) :
    mapGet (cascadeIter mid o cs j) cid = mapGet cs cid := by
  cases hv : mapGet cs j with
  | none => simp only [cascadeIter, hv]
  | some c =>
    simp only [cascadeIter, hv]
    by_cases h1 : c.status ≠ ComboStatus.Active ∧
        c.status ≠ ComboStatus.PartiallyResolved
    · rw [if_pos h1]
    · rw [if_neg h1]
      by_cases h2 : c.legs.any (fun l => l.market_id == mid && !l.resolved) = true
      · rw [if_pos h2]
        exact mapGet_insert_ne _ _ _ _ (Ne.symm h)
      · rw [if_neg h2]

theorem cascade_foldl_ne (mid : Nat) (o : Bool) (l : List Nat)
    (cs : List (Nat × Combo)) (cid : Nat) (h : cid ∉ l) :
    mapGet (l.foldl (cascadeIter mid o) cs) cid = mapGet cs cid := by
  induction l generalizing cs with
  | nil => rfl
  | cons j rest ih =>
    have hj : j ≠ cid := fun he => h (by simp [he])
    have hr : cid ∉ rest := fun hm => h (by simp [hm])
    rw [List.foldl_cons, ih _ hr, cascadeIter_lookup_ne _ _ _ _ _ hj]

theorem cascadeIter_lookup_congr (mid : Nat) (o : Bool) (cid : Nat)
    (cs1 cs2 : List (Nat × Combo)) (h : mapGet cs1 cid = mapGet cs2 cid) :
    mapGet (cascadeIter mid o cs1 cid) cid =
      mapGet (cascadeIter mid o cs2 cid) cid := by
  cases hv : mapGet cs2 cid with
  | none =>
    have h1 : mapGet cs1 cid = none := h.trans hv
    simp only [cascadeIter, hv, h1, h]
  | some c =>
    have h1 : mapGet cs1 cid = some c := h.trans hv
    simp only [cascadeIter, hv, h1]
    by_cases hs : c.status ≠ ComboStatus.Active ∧
        c.status ≠ ComboStatus.PartiallyResolved
    · rw [if_pos hs, if_pos hs, h]
    · rw [if_neg hs, if_neg hs]
      by_cases h2 : c.legs.any (fun l => l.market_id == mid && !l.resolved) = true
      · rw [if_pos h2, if_pos h2, mapGet_insert_self, mapGet_insert_self]
      · rw [if_neg h2, if_neg h2, h]

theorem cascade_foldl_lookup (mid : Nat) (o : Bool) (n cid : Nat)
    (cs : List (Nat × Combo)) (h : cid < n) :
    mapGet ((List.range n).foldl (cascadeIter mid o) cs) cid =
      mapGet (cascadeIter mid o cs cid) cid := by
  induction n with
  | zero => omega
  | succ n ih =>
    rw [List.range_succ, List.foldl_append, List.foldl_cons, List.foldl_nil]
    by_cases hcn : cid < n
    · rw [cascadeIter_lookup_ne _ _ _ _ _ (by omega), ih hcn]
    · have hceq : cid = n := by omega
      subst hceq
      exact cascadeIter_lookup_congr _ _ _ _ _
        (cascade_foldl_ne _ _ _ _ _ (by simp))

/-- C9: (a) a combo whose status is `Lost` is left completely unchanged
by every operation (its map entry survives verbatim), and (b) whenever a
successful `ResolveMarket` cascade reaches an `Active` or
`PartiallyResolved` combo having some not-yet-resolved leg of the resolved
market whose prediction disagrees with the outcome, that combo's status
becomes `Lost` in the same step, independent of the other legs. -/
theorem combo_lost_sticky_and_cascade
    (s : MarketState) (ctx : Ctx) (op : Operation) (cid : Nat) (c : Combo)
    (hc : mapGet s.combos cid = some c)
    (hlt : cid < s.next_combo_id) :
    (c.status = .Lost → mapGet (exec s ctx op).1.combos cid = some c) ∧
    (∀ mid outcome, op = .ResolveMarket mid outcome →
      (exec s ctx op).2 = .ok .MarketResolved →
      (c.status = .Active ∨ c.status = .PartiallyResolved) →
      ∀ leg, leg ∈ c.legs → leg.market_id = mid → leg.resolved = false →
        leg.prediction ≠ outcome →
      ∃ c', mapGet (exec s ctx op).1.combos cid = some c' ∧
        c'.status = .Lost) := by
  constructor
  · intro hLost
    cases hcal : ctx.caller with
    | none => simp only [exec, hcal]; exact hc
    | some u =>
      cases op
      case ResolveMarket mid outcome =>
        cases hmkt : mapGet s.markets mid with
        | none => simp only [exec, hcal, hmkt]; exact hc
        | some mk =>
          by_cases hr : mk.resolved = true
          · simp only [exec, hcal, hmkt, hr, if_true]; exact hc
          · by_cases hcr : mk.creator ≠ u
            · simp only [exec, hcal, hmkt, if_neg hr, if_pos hcr]; exact hc
            · simp only [exec, hcal, hmkt, if_neg hr, if_neg hcr,
                update_combos_for_market]
              rw [cascade_foldl_lookup _ _ _ _ _ hlt]
              simp only [cascadeIter, hc]
              rw [if_pos ⟨by rw [hLost]; decide, by rw [hLost]; decide⟩]
              exact hc
      case CreateCombo nm lgs stk =>
        by_cases h2 : lgs.length < 2
        · simp only [exec, hcal, if_pos h2]; exact hc
        · by_cases h10 : lgs.length > 10
          · simp only [exec, hcal, if_neg h2, if_pos h10]; exact hc
          · rcases hbl : buildComboLegs
                { s with next_combo_id := (s.next_combo_id + 1) % U64MOD }
                lgs SCALE with e | ⟨cl, co⟩
            · simp only [exec, hcal, if_neg h2, if_neg h10, hbl]; exact hc
            · simp only [exec, hcal, if_neg h2, if_neg h10, hbl]
              rw [mapGet_insert_ne _ _ _ _ (Nat.ne_of_lt hlt)]
              exact hc
      case CancelCombo ccid =>
        cases hcc : mapGet s.combos ccid with
        | none => simp only [exec, hcal, hcc]; exact hc
        | some c0 =>
          by_cases h1 : c0.owner ≠ u
          · simp only [exec, hcal, hcc, if_pos h1]; exact hc
          · by_cases hs2 : c0.status ≠ ComboStatus.Active
            · simp only [exec, hcal, hcc, if_neg h1, if_pos hs2]; exact hc
            · by_cases h3 : ¬ c0.legs.all (fun l => !l.resolved) = true
              · simp only [exec, hcal, hcc, if_neg h1, if_neg hs2, if_pos h3]
                exact hc
              · simp only [exec, hcal, hcc, if_neg h1, if_neg hs2, if_neg h3]
                have hact : c0.status = ComboStatus.Active := not_ne_iff.mp hs2
                have hne : ccid ≠ cid := by
                  intro he
                  subst he
                  injection hc.symm.trans hcc with h4
                  rw [← h4, hLost] at hact
                  exact absurd hact (by decide)
                rw [mapGet_insert_ne _ _ _ _ (Ne.symm hne)]
                exact hc
      all_goals
        simp only [exec, hcal, update_position, create_feed_item]
      all_goals repeat' split
      all_goals exact hc
  · intro mid outcome hop hsucc hstat leg hmem hlm hlr hlp
    subst hop
    cases hcal : ctx.caller with
    | none => simp [exec, hcal] at hsucc
    | some u =>
      cases hmkt : mapGet s.markets mid with
      | none => simp [exec, hcal, hmkt] at hsucc
      | some mk =>
        by_cases hr : mk.resolved = true
        · simp [exec, hcal, hmkt, hr] at hsucc
        · by_cases hcr : mk.creator ≠ u
          · simp only [exec, hcal, hmkt, if_neg hr, if_pos hcr] at hsucc
            exact Except.noConfusion hsucc
          · simp only [exec, hcal, hmkt, if_neg hr, if_neg hcr,
              update_combos_for_market]
            rw [cascade_foldl_lookup _ _ _ _ _ hlt]
            simp only [cascadeIter, hc]
            have hcond : ¬(c.status ≠ ComboStatus.Active ∧
                c.status ≠ ComboStatus.PartiallyResolved) := by
              rcases hstat with h | h <;> simp [h]
            rw [if_neg hcond]
            have hany : c.legs.any
                (fun l => l.market_id == mid && !l.resolved) = true := by
              apply List.any_eq_true.mpr
              exact ⟨leg, hmem, by simp [hlm, hlr]⟩
            rw [if_pos hany, mapGet_insert_self]
            refine ⟨cascadeCombo mid outcome c, rfl, ?_⟩
            have hpred : (leg.prediction == outcome) = false := by
              cases hp : leg.prediction <;> cases ho : outcome <;> simp_all
            have hlegval : cascadeLeg mid outcome leg =
                { leg with
                  resolved := true
                  won := some (leg.prediction == outcome) } := by
              simp [cascadeLeg, hlm, hlr]
            have hany2 : (c.legs.map (cascadeLeg mid outcome)).any
                (fun l => l.resolved && l.won == some false) = true := by
              apply List.any_eq_true.mpr
              refine ⟨cascadeLeg mid outcome leg,
                List.mem_map_of_mem _ hmem, ?_⟩
              rw [hlegval, hpred]
              simp
            simp only [cascadeCombo, comboStatusAfter, hany2, if_true]

/-- Witness for C9: resolving market 0 with outcome `false` against the
combo's YES prediction marks the combo `Lost` in the same step, although
its second leg is still unresolved. -/
theorem combo_lost_sticky_and_cascade_witness :
    mapGet c9State.combos 0 = some c9Combo ∧ 0 < c9State.next_combo_id ∧
    (mapGet (exec c9State ⟨0, some 1⟩ (.ResolveMarket 0 false)).1.combos 0).map
      Combo.status = some ComboStatus.Lost := by
  have h := combo_lost_sticky_and_cascade c9State ⟨0, some 1⟩
    (.ResolveMarket 0 false) 0 c9Combo (by decide) (by decide)
  obtain ⟨c', hc', hs'⟩ := h.2 0 false rfl (by decide) (Or.inl rfl)
    { market_id := 0, prediction := true, odds := 500000000000000000,
      resolved := false, won := none }
    (by decide) rfl rfl (by decide)
  exact ⟨by decide, by decide, by rw [hc']; simp [hs']⟩

theorem wmul_eq_mul (x y : Nat) (h : x * y < MOD) : wmul x y = x * y :=
  Nat.mod_eq_of_lt h

theorem comboLegsOk_markets_congr (s1 s2 : MarketState)
    (h : s1.markets = s2.markets) (legs : List ComboLeg) (acc : Nat) :
    comboLegsOk s1 legs acc = comboLegsOk s2 legs acc := by
  induction legs generalizing acc with
  | nil => rfl
  | cons leg rest ih =>
    cases hm : mapGet s2.markets leg.market_id with
    | none => simp [comboLegsOk, h, hm]
    | some m =>
      simp only [comboLegsOk, h, hm]
      rw [ih]

theorem specComboOdds_markets_congr (s1 s2 : MarketState)
    (h : s1.markets = s2.markets) (legs : List ComboLeg) (acc : Nat) :
    specComboOdds s1 legs acc = specComboOdds s2 legs acc := by
  induction legs generalizing acc with
  | nil => rfl
  | cons leg rest ih =>
    cases hm : mapGet s2.markets leg.market_id with
    | none => simp [specComboOdds, h, hm]
    | some m =>
      simp only [specComboOdds, h, hm]
      rw [ih]

/-- Under the `comboLegsOk` side conditions the code's combo-leg loop
computes exactly the claim's formulas. -/
theorem buildComboLegs_spec (s : MarketState) (legs : List ComboLeg) :
    ∀ (acc : Nat) (os : List Nat) (f : Nat),
    comboLegsOk s legs acc = true →
    specComboOdds s legs acc = some (os, f) →
    buildComboLegs s legs acc = .ok (List.zipWith specLegState legs os, f) := by
  induction legs with
  | nil =>
    intro acc os f _ hspec
    simp only [specComboOdds, Option.some.injEq, Prod.mk.injEq] at hspec
    obtain ⟨hos, hf⟩ := hspec
    subst hos hf
    rfl
  | cons leg rest ih =>
    intro acc os f hok hspec
    cases hm : mapGet s.markets leg.market_id with
    | none => simp [comboLegsOk, hm] at hok
    | some m =>
      simp only [comboLegsOk, hm, Bool.and_eq_true, decide_eq_true_eq,
        Bool.not_eq_true'] at hok
      obtain ⟨⟨⟨⟨⟨⟨hres, htot⟩, htot0⟩, hopp⟩, hodds⟩, hacc⟩, hrest⟩ := hok
      simp only [specComboOdds, hm] at hspec
      cases hp : leg.prediction with
      | true =>
        simp only [hp, if_true] at hopp hodds hrest hspec
        cases hrec : specComboOdds s rest
            (acc * SCALE / (m.no_pool * SCALE / (m.yes_pool + m.no_pool))) with
        | none => rw [hrec] at hspec; exact absurd hspec (by simp)
        | some pr =>
          obtain ⟨os', f'⟩ := pr
          rw [hrec] at hspec
          simp only [Option.some.injEq, Prod.mk.injEq] at hspec
          obtain ⟨hos, hf⟩ := hspec
          subst hos hf
          simp only [buildComboLegs, hm, hres, Bool.false_eq_true, if_false,
            hp, if_true, wadd_eq_add _ _ htot,
            if_neg (Nat.pos_iff_ne_zero.mp htot0), wmul_eq_mul _ _ hopp,
            if_pos hodds, wmul_eq_mul _ _ hacc, ih _ _ _ hrest hrec]
          simp [specLegState, hp]
      | false =>
        simp only [hp, Bool.false_eq_true, if_false] at hopp hodds hrest hspec
        cases hrec : specComboOdds s rest
            (acc * SCALE / (m.yes_pool * SCALE / (m.yes_pool + m.no_pool))) with
        | none => rw [hrec] at hspec; exact absurd hspec (by simp)
        | some pr =>
          obtain ⟨os', f'⟩ := pr
          rw [hrec] at hspec
          simp only [Option.some.injEq, Prod.mk.injEq] at hspec
          obtain ⟨hos, hf⟩ := hspec
          subst hos hf
          simp only [buildComboLegs, hm, hres, Bool.false_eq_true, if_false,
            hp, wadd_eq_add _ _ htot,
            if_neg (Nat.pos_iff_ne_zero.mp htot0), wmul_eq_mul _ _ hopp,
            if_pos hodds, wmul_eq_mul _ _ hacc, ih _ _ _ hrest hrec]
          simp [specLegState, hp]

/-- C8 (amended): for every `CreateCombo` over existing, unresolved
markets with nonzero total liquidity whose intermediate products
(`opposing_pool·SCALE`, `combined_odds·SCALE`, `stake·combined_odds`)
all stay below `2^128` and whose leg odds are all positive, the stored
combo snapshots each leg's odds as `opposing_pool * SCALE / total_pool`
and `potential_payout = stake * combined_odds / SCALE`, with
`combined_odds` starting at `SCALE = 10^18` and updated as
`combined_odds * SCALE / leg_odds` per leg (the claim's formulas,
computed by `specComboOdds`). -/
theorem create_combo_odds_spec
    (s : MarketState) (ctx : Ctx) (u : Nat) (name : String)
    (legs : List ComboLeg) (stake : Nat) (os : List Nat) (f : Nat)
    (hcaller : ctx.caller = some u)
    (h2 : 2 ≤ legs.length) (h10 : legs.length ≤ 10)
    (hok : comboLegsOk s legs SCALE = true)
    (hspec : specComboOdds s legs SCALE = some (os, f))
    (hstake : stake * f < MOD) :
    (exec s ctx (.CreateCombo name legs stake)).2 =
      .ok (.ComboCreated s.next_combo_id) ∧
    mapGet (exec s ctx (.CreateCombo name legs stake)).1.combos
        s.next_combo_id =
      some { id := s.next_combo_id, owner := u, name := name,
             legs := List.zipWith specLegState legs os, stake := stake,
             potential_payout := stake * f / SCALE,
             created_at := ctx.timestamp, status := .Active } := by
  have hok' : comboLegsOk
      { s with next_combo_id := (s.next_combo_id + 1) % U64MOD }
      legs SCALE = true :=
    (comboLegsOk_markets_congr
      { s with next_combo_id := (s.next_combo_id + 1) % U64MOD }
      s rfl legs SCALE).trans hok
  have hspec' : specComboOdds
      { s with next_combo_id := (s.next_combo_id + 1) % U64MOD }
      legs SCALE = some (os, f) :=
    (specComboOdds_markets_congr
      { s with next_combo_id := (s.next_combo_id + 1) % U64MOD }
      s rfl legs SCALE).trans hspec
  have hbuild := buildComboLegs_spec
    { s with next_combo_id := (s.next_combo_id + 1) % U64MOD }
    legs SCALE os f hok' hspec'
  constructor
  · simp only [exec, hcaller, if_neg (Nat.not_lt.mpr h2),
      if_neg (Nat.not_lt.mpr h10), hbuild, wmul_eq_mul _ _ hstake]
  · simp only [exec, hcaller, if_neg (Nat.not_lt.mpr h2),
      if_neg (Nat.not_lt.mpr h10), hbuild, wmul_eq_mul _ _ hstake,
      mapGet_insert_self]

/-- Witness for the amended C8 theorem: a 2-leg combo over two 50/50
markets with stake 100 records each leg's odds as `5·10^17` and
`potential_payout = 400`, exactly the claim's scenario. -/
theorem create_combo_odds_spec_witness :
    comboLegsOk c8wState [⟨0, true⟩, ⟨1, true⟩] SCALE = true ∧
    specComboOdds c8wState [⟨0, true⟩, ⟨1, true⟩] SCALE =
      some ([500000000000000000, 500000000000000000],
        4000000000000000000) ∧
    (exec c8wState ⟨0, some 2⟩
        (.CreateCombo "c" [⟨0, true⟩, ⟨1, true⟩] 100)).2 =
      .ok (.ComboCreated 0) ∧
    mapGet (exec c8wState ⟨0, some 2⟩
        (.CreateCombo "c" [⟨0, true⟩, ⟨1, true⟩] 100)).1.combos 0 =
      some { id := 0, owner := 2, name := "c",
             legs := [{ market_id := 0, prediction := true,
                        odds := 500000000000000000, resolved := false,
                        won := none },
                      { market_id := 1, prediction := true,
                        odds := 500000000000000000, resolved := false,
                        won := none }],
             stake := 100, potential_payout := 400,
             created_at := 0, status := .Active } := by
  have h := create_combo_odds_spec c8wState ⟨0, some 2⟩ 2 "c"
    [⟨0, true⟩, ⟨1, true⟩] 100
    [500000000000000000, 500000000000000000] 4000000000000000000
    rfl (by decide) (by decide) (by decide) (by decide) (by decide)
  exact ⟨by decide, by decide, h.1, h.2⟩

theorem mapGet_some_mem {K V : Type} [DecidableEq K]
    (l : List (K × V)) (k : K) (v : V) (h : mapGet l k = some v) :
    (k, v) ∈ l := by
  induction l with
  | nil => simp [mapGet] at h
  | cons e rest ih =>
    obtain ⟨e1, e2⟩ := e
    by_cases he : e1 = k
    · simp only [mapGet, if_pos he] at h
      injection h with h2
      subst he
      subst h2
      exact List.mem_cons_self _ _
    · simp only [mapGet, if_neg he] at h
      exact List.mem_cons_of_mem _ (ih h)

theorem mapInsert_mem {K V : Type} [DecidableEq K]
    (l : List (K × V)) (k : K) (v : V) (p : K × V)
    (h : p ∈ mapInsert l k v) : p ∈ l ∨ p = (k, v) := by
  induction l with
  | nil => simp [mapInsert] at h; right; exact h
  | cons e rest ih =>
    by_cases he : e.1 = k
    · simp only [mapInsert, if_pos he] at h
      rcases List.mem_cons.mp h with h1 | h1
      · right; exact h1
      · left; exact List.mem_cons_of_mem _ h1
    · simp only [mapInsert, if_neg he] at h
      rcases List.mem_cons.mp h with h1 | h1
      · left; exact h1 ▸ List.mem_cons_self e rest
      · rcases ih h1 with h2 | h2
        · left; exact List.mem_cons_of_mem _ h2
        · right; exact h2

theorem mapInsert_keys_sub {K V : Type} [DecidableEq K]
    (l : List (K × V)) (k : K) (v : V) (x : K)
    (h : x ∈ (mapInsert l k v).map Prod.fst) :
    x ∈ l.map Prod.fst ∨ x = k := by
  rcases List.mem_map.mp h with ⟨p, hp, hx⟩
  rcases mapInsert_mem l k v p hp with h1 | h1
  · left; exact hx ▸ List.mem_map_of_mem _ h1
  · right; rw [← hx, h1]

theorem mapInsert_keys_nodup {K V : Type} [DecidableEq K]
    (l : List (K × V)) (k : K) (v : V)
    (h : (l.map Prod.fst).Nodup) :
    ((mapInsert l k v).map Prod.fst).Nodup := by
  induction l with
  | nil => simp [mapInsert]
  | cons e rest ih =>
    rw [List.map_cons, List.nodup_cons] at h
    by_cases he : e.1 = k
    · simp only [mapInsert, if_pos he, List.map_cons, List.nodup_cons]
      exact ⟨he ▸ h.1, h.2⟩
    · simp only [mapInsert, if_neg he, List.map_cons, List.nodup_cons]
      refine ⟨fun hx => ?_, ih h.2⟩
      rcases mapInsert_keys_sub rest k v e.1 hx with h1 | h1
      · exact h.1 h1
      · exact he h1

theorem mapInsert_mem_nodup {K V : Type} [DecidableEq K]
    (l : List (K × V)) (k : K) (v : V) (p : K × V)
    (hnd : (l.map Prod.fst).Nodup) (h : p ∈ mapInsert l k v) :
    (p ∈ l ∧ p.1 ≠ k) ∨ p = (k, v) := by
  induction l with
  | nil => simp [mapInsert] at h; right; exact h
  | cons e rest ih =>
    rw [List.map_cons, List.nodup_cons] at hnd
    by_cases he : e.1 = k
    · simp only [mapInsert, if_pos he] at h
      rcases List.mem_cons.mp h with h1 | h1
      · right; exact h1
      · left
        refine ⟨List.mem_cons_of_mem _ h1, fun hpk => ?_⟩
        exact hnd.1 (he ▸ hpk ▸ List.mem_map_of_mem Prod.fst h1)
    · simp only [mapInsert, if_neg he] at h
      rcases List.mem_cons.mp h with h1 | h1
      · left
        exact ⟨h1 ▸ List.mem_cons_self e rest, by rw [h1]; exact he⟩
      · rcases ih hnd.2 h1 with h2 | h2
        · exact Or.inl ⟨List.mem_cons_of_mem _ h2.1, h2.2⟩
        · right; exact h2

theorem sumShares_eq_zero (f : Position → Nat)
    (ps : List ((Nat × Nat) × Position)) (mid : Nat)
    (h : ∀ q ∈ ps, q.1.2 ≠ mid) : sumShares f ps mid = 0 := by
  induction ps with
  | nil => rfl
  | cons e rest ih =>
    simp only [sumShares, if_neg (h e (List.mem_cons_self e rest)),
      Nat.zero_add]
    exact ih (fun q hq => h q (List.mem_cons_of_mem e hq))

theorem sumShares_insert_none (f : Position → Nat)
    (ps : List ((Nat × Nat) × Position)) (k : Nat × Nat) (p' : Position)
    (mid : Nat) (h : mapGet ps k = none) :
    sumShares f (mapInsert ps k p') mid =
      sumShares f ps mid + (if k.2 = mid then f p' else 0) := by
  induction ps with
  | nil => simp [mapInsert, sumShares]
  | cons e rest ih =>
    by_cases he : e.1 = k
    · simp [mapGet, he] at h
    · simp only [mapGet, if_neg he] at h
      simp only [mapInsert, if_neg he, sumShares, ih h]
      omega

theorem sumShares_insert_some (f : Position → Nat)
    (ps : List ((Nat × Nat) × Position)) (k : Nat × Nat) (p0 p' : Position)
    (mid : Nat) (h : mapGet ps k = some p0) :
    sumShares f (mapInsert ps k p') mid + (if k.2 = mid then f p0 else 0) =
      sumShares f ps mid + (if k.2 = mid then f p' else 0) := by
  induction ps with
  | nil => simp [mapGet] at h
  | cons e rest ih =>
    by_cases he : e.1 = k
    · simp only [mapGet, if_pos he] at h
      injection h with h2
      subst h2
      by_cases hk2 : k.2 = mid
      · simp only [mapInsert, if_pos he, sumShares, he, if_pos hk2]
        try omega
      · simp only [mapInsert, if_pos he, sumShares, he, if_neg hk2]
        try omega
    · simp only [mapGet, if_neg he] at h
      simp only [mapInsert, if_neg he, sumShares]
      have := ih h
      omega

theorem le_sumShares (f : Position → Nat)
    (ps : List ((Nat × Nat) × Position)) (k : Nat × Nat) (p0 : Position)
    (mid : Nat) (h : mapGet ps k = some p0) (hk : k.2 = mid) :
    f p0 ≤ sumShares f ps mid := by
  induction ps with
  | nil => simp [mapGet] at h
  | cons e rest ih =>
    by_cases he : e.1 = k
    · simp only [mapGet, if_pos he] at h
      injection h with h2
      simp only [sumShares, he, if_pos hk, h2]
      omega
    · simp only [mapGet, if_neg he] at h
      simp only [sumShares]
      have := ih h
      omega

theorem shareInv_frame (σ : Nat → Option Nat) (s s' : MarketState)
    (hm : s'.markets = s.markets)
    (hp : s'.positions = s.positions)
    (hn : s'.next_market_id = s.next_market_id)
    (h : SeedInv σ s) : SeedInv σ s' :=
  ⟨by rw [hm, hn]; exact h.mids, by rw [hp, hn]; exact h.pids,
   by rw [hm]; exact h.mnodup, by rw [hp]; exact h.pnodup,
   by rw [hm, hp]; exact h.sums⟩

/-- Invariant preservation for a trade step: one market replaced and the
caller's position replaced, with matching share deltas. -/
theorem shareInv_trade (s s' : MarketState) (σ : Nat → Option Nat)
    (u mid : Nat) (m m' : Market)
    (pos' : Position) (h : SeedInv σ s)
    (hm : mapGet s.markets mid = some m)
    (hm' : s'.markets = mapInsert s.markets mid m')
    (hp' : s'.positions = mapInsert s.positions (u, mid) pos')
    (hn' : s'.next_market_id = s.next_market_id)
    (hy : m'.total_yes_shares +
        ((mapGet s.positions (u, mid)).getD (zeroPos u mid)).yes_shares =
      m.total_yes_shares + pos'.yes_shares)
    (hn2 : m'.total_no_shares +
        ((mapGet s.positions (u, mid)).getD (zeroPos u mid)).no_shares =
      m.total_no_shares + pos'.no_shares) : SeedInv σ s' := by
  have hmidlt : mid < s.next_market_id := h.mids (mid, m) (mapGet_some_mem _ _ _ hm)
  refine ⟨?_, ?_, ?_, ?_, ?_⟩
  · rw [hm', hn']
    intro p hp
    rcases mapInsert_mem _ _ _ _ hp with h1 | h1
    · exact h.mids p h1
    · rw [h1]; exact hmidlt
  · rw [hp', hn']
    intro q hq
    rcases mapInsert_mem _ _ _ _ hq with h1 | h1
    · exact h.pids q h1
    · rw [h1]; exact hmidlt
  · rw [hm']; exact mapInsert_keys_nodup _ _ _ h.mnodup
  · rw [hp']; exact mapInsert_keys_nodup _ _ _ h.pnodup
  · rw [hm', hp']
    intro p hp
    rcases mapInsert_mem_nodup _ _ _ _ h.mnodup hp with ⟨h1, hne⟩ | h1
    · obtain ⟨k, hk, hky, hkn⟩ := h.sums p h1
      have hne' : ¬((u, mid).2 = p.1) := fun hh => hne hh.symm
      refine ⟨k, hk, ?_, ?_⟩
      · cases hpos : mapGet s.positions (u, mid) with
        | none =>
          rw [sumYes, sumShares_insert_none _ _ _ _ _ hpos]
          simp only [if_neg hne', Nat.add_zero]
          rw [sumYes] at hky
          exact hky
        | some p0 =>
          have hins := sumShares_insert_some Position.yes_shares
            s.positions (u, mid) p0 pos' p.1 hpos
          simp only [if_neg hne', Nat.add_zero] at hins
          rw [sumYes] at hky ⊢
          omega
      · cases hpos : mapGet s.positions (u, mid) with
        | none =>
          rw [sumNo, sumShares_insert_none _ _ _ _ _ hpos]
          simp only [if_neg hne', Nat.add_zero]
          rw [sumNo] at hkn
          exact hkn
        | some p0 =>
          have hins := sumShares_insert_some Position.no_shares
            s.positions (u, mid) p0 pos' p.1 hpos
          simp only [if_neg hne', Nat.add_zero] at hins
          rw [sumNo] at hkn ⊢
          omega
    · obtain ⟨k, hk, hky, hkn⟩ := h.sums (mid, m) (mapGet_some_mem _ _ _ hm)
      rw [sumYes] at hky
      rw [sumNo] at hkn
      have hky' : m.total_yes_shares =
        k + sumShares Position.yes_shares s.positions mid := hky
      have hkn' : m.total_no_shares =
        k + sumShares Position.no_shares s.positions mid := hkn
      subst h1
      refine ⟨k, hk, ?_, ?_⟩
      · show m'.total_yes_shares =
          k + sumYes (mapInsert s.positions (u, mid) pos') mid
        cases hpos : mapGet s.positions (u, mid) with
        | none =>
          rw [hpos] at hy
          simp only [Option.getD, zeroPos] at hy
          rw [sumYes, sumShares_insert_none _ _ _ _ _ hpos]
          simp only [if_true]
          omega
        | some p0 =>
          rw [hpos] at hy
          simp only [Option.getD] at hy
          have hins := sumShares_insert_some Position.yes_shares
            s.positions (u, mid) p0 pos' mid hpos
          simp only [if_true] at hins
          rw [sumYes]
          omega
      · show m'.total_no_shares =
          k + sumNo (mapInsert s.positions (u, mid) pos') mid
        cases hpos : mapGet s.positions (u, mid) with
        | none =>
          rw [hpos] at hn2
          simp only [Option.getD, zeroPos] at hn2
          rw [sumNo, sumShares_insert_none _ _ _ _ _ hpos]
          simp only [if_true]
          omega
        | some p0 =>
          rw [hpos] at hn2
          simp only [Option.getD] at hn2
          have hins := sumShares_insert_some Position.no_shares
            s.positions (u, mid) p0 pos' mid hpos
          simp only [if_true] at hins
          rw [sumNo]
          omega

/-- Invariant preservation when only one position's non-share fields
change (`ClaimWinnings`). -/
theorem shareInv_pos_update (s s' : MarketState) (σ : Nat → Option Nat)
    (u mid : Nat)
    (pos' : Position) (h : SeedInv σ s) (hmid : mid < s.next_market_id)
    (hm' : s'.markets = s.markets)
    (hp' : s'.positions = mapInsert s.positions (u, mid) pos')
    (hn' : s'.next_market_id = s.next_market_id)
    (hy : pos'.yes_shares =
      ((mapGet s.positions (u, mid)).getD (zeroPos u mid)).yes_shares)
    (hn2 : pos'.no_shares =
      ((mapGet s.positions (u, mid)).getD (zeroPos u mid)).no_shares) :
    SeedInv σ s' := by
  refine ⟨?_, ?_, ?_, ?_, ?_⟩
  · rw [hm', hn']; exact h.mids
  · rw [hp', hn']
    intro q hq
    rcases mapInsert_mem _ _ _ _ hq with h1 | h1
    · exact h.pids q h1
    · rw [h1]; exact hmid
  · rw [hm']; exact h.mnodup
  · rw [hp']; exact mapInsert_keys_nodup _ _ _ h.pnodup
  · rw [hm', hp']
    intro p hp
    obtain ⟨k, hk, hky, hkn⟩ := h.sums p hp
    rw [sumYes] at hky
    rw [sumNo] at hkn
    refine ⟨k, hk, ?_, ?_⟩
    · cases hpos : mapGet s.positions (u, mid) with
      | none =>
        rw [hpos] at hy
        simp only [Option.getD, zeroPos] at hy
        rw [sumYes, sumShares_insert_none _ _ _ _ _ hpos, hy]
        simp only [ite_self, Nat.add_zero]
        exact hky
      | some p0 =>
        rw [hpos] at hy
        simp only [Option.getD] at hy
        have hins := sumShares_insert_some Position.yes_shares
          s.positions (u, mid) p0 pos' p.1 hpos
        rw [hy] at hins
        rw [sumYes]
        omega
    · cases hpos : mapGet s.positions (u, mid) with
      | none =>
        rw [hpos] at hn2
        simp only [Option.getD, zeroPos] at hn2
        rw [sumNo, sumShares_insert_none _ _ _ _ _ hpos, hn2]
        simp only [ite_self, Nat.add_zero]
        exact hkn
      | some p0 =>
        rw [hpos] at hn2
        simp only [Option.getD] at hn2
        have hins := sumShares_insert_some Position.no_shares
          s.positions (u, mid) p0 pos' p.1 hpos
        rw [hn2] at hins
        rw [sumNo]
        omega

/-- Invariant preservation when one market is replaced with unchanged
share totals (`ResolveMarket`). -/
theorem shareInv_market_replace (s s' : MarketState) (σ : Nat → Option Nat)
    (mid : Nat)
    (m m' : Market) (h : SeedInv σ s)
    (hm : mapGet s.markets mid = some m)
    (hm' : s'.markets = mapInsert s.markets mid m')
    (hp' : s'.positions = s.positions)
    (hn' : s'.next_market_id = s.next_market_id)
    (hty : m'.total_yes_shares = m.total_yes_shares)
    (htn : m'.total_no_shares = m.total_no_shares) : SeedInv σ s' := by
  have hmidlt : mid < s.next_market_id := h.mids (mid, m) (mapGet_some_mem _ _ _ hm)
  refine ⟨?_, ?_, ?_, ?_, ?_⟩
  · rw [hm', hn']
    intro p hp
    rcases mapInsert_mem _ _ _ _ hp with h1 | h1
    · exact h.mids p h1
    · rw [h1]; exact hmidlt
  · rw [hp', hn']; exact h.pids
  · rw [hm']; exact mapInsert_keys_nodup _ _ _ h.mnodup
  · rw [hp']; exact h.pnodup
  · rw [hm', hp']
    intro p hp
    rcases mapInsert_mem _ _ _ _ hp with h1 | h1
    · exact h.sums p h1
    · obtain ⟨k, hk, hky, hkn⟩ := h.sums (mid, m) (mapGet_some_mem _ _ _ hm)
      subst h1
      refine ⟨k, hk, ?_, ?_⟩
      · show m'.total_yes_shares = k + sumYes s.positions mid
        rw [hty]; exact hky
      · show m'.total_no_shares = k + sumNo s.positions mid
        rw [htn]; exact hkn

/-- Invariant preservation for `CreateMarket`: a fresh market inserted at
the counter value, seeded totals, counter incremented. -/
theorem shareInv_create (s s' : MarketState) (σ : Nat → Option Nat)
    (m' : Market) (half : Nat)
    (h : SeedInv σ s)
    (hm' : s'.markets = mapInsert s.markets s.next_market_id m')
    (hp' : s'.positions = s.positions)
    (hn' : s'.next_market_id = s.next_market_id + 1)
    (hty : m'.total_yes_shares = half) (htn : m'.total_no_shares = half) :
    SeedInv (setSeed σ s.next_market_id half) s' := by
  refine ⟨?_, ?_, ?_, ?_, ?_⟩
  · rw [hm', hn']
    intro p hp
    rcases mapInsert_mem _ _ _ _ hp with h1 | h1
    · exact Nat.lt_succ_of_lt (h.mids p h1)
    · rw [h1]; exact Nat.lt_succ_self _
  · rw [hp', hn']
    intro q hq
    exact Nat.lt_succ_of_lt (h.pids q hq)
  · rw [hm']; exact mapInsert_keys_nodup _ _ _ h.mnodup
  · rw [hp']; exact h.pnodup
  · rw [hm', hp']
    intro p hp
    rcases mapInsert_mem _ _ _ _ hp with h1 | h1
    · obtain ⟨k, hk, hky, hkn⟩ := h.sums p h1
      have hne : ¬(p.1 = s.next_market_id) := Nat.ne_of_lt (h.mids p h1)
      refine ⟨k, ?_, hky, hkn⟩
      show setSeed σ s.next_market_id half p.1 = some k
      simp only [setSeed, if_neg hne]
      exact hk
    · subst h1
      refine ⟨half, ?_, ?_, ?_⟩
      · show setSeed σ s.next_market_id half s.next_market_id = some half
        simp only [setSeed, if_true]
      · show m'.total_yes_shares =
          half + sumYes s.positions s.next_market_id
        rw [hty, sumYes, sumShares_eq_zero _ _ _
          (fun q hq => Nat.ne_of_lt (h.pids q hq))]
        omega
      · show m'.total_no_shares =
          half + sumNo s.positions s.next_market_id
        rw [htn, sumNo, sumShares_eq_zero _ _ _
          (fun q hq => Nat.ne_of_lt (h.pids q hq))]
        omega

/-- Every guarded operation preserves the seed-relative share-accounting
invariant, the seed assignment evolving by `stepSeed`. -/
theorem shareInv_step (s : MarketState) (ctx : Ctx) (op : Operation)
    (σ : Nat → Option Nat)
    (h : SeedInv σ s) (hg : opGuard s ctx op = true) :
    SeedInv (stepSeed s ctx op σ) (exec s ctx op).1 := by
  cases hcal : ctx.caller with
  | none =>
    simp only [exec, hcal]
    cases op
    case CreateMarket q cats et liq => simp only [stepSeed, hcal]; exact h
    all_goals exact h
  | some u =>
    cases op
    case CreateMarket q cats et liq =>
      have hng : s.next_market_id + 1 < U64MOD := by simpa [opGuard] using hg
      have hmod : (s.next_market_id + 1) % U64MOD = s.next_market_id + 1 :=
        Nat.mod_eq_of_lt hng
      by_cases hliq : liq = 0
      · simp only [exec, stepSeed, hcal, if_pos hliq]
        refine ⟨?_, ?_, h.mnodup, h.pnodup, h.sums⟩
        · intro p hp
          show p.1 < (s.next_market_id + 1) % U64MOD
          rw [hmod]
          exact Nat.lt_succ_of_lt (h.mids p hp)
        · intro q2 hq
          show q2.1.2 < (s.next_market_id + 1) % U64MOD
          rw [hmod]
          exact Nat.lt_succ_of_lt (h.pids q2 hq)
      · simp only [exec, stepSeed, hcal, if_neg hliq, create_feed_item]
        exact shareInv_create s _ σ _ (liq / 2) h rfl rfl hmod rfl rfl
    case BuyShares mid is_yes shares maxc =>
      cases hmkt : mapGet s.markets mid with
      | none => simp only [exec, hcal, hmkt]; exact h
      | some m =>
        cases is_yes with
        | true =>
          have htys : m.total_yes_shares + shares ≤ UMAX := by
            simpa [opGuard, hmkt] using hg
          by_cases hr : m.resolved = true
          · simp only [exec, hcal, hmkt, if_true, Bool.false_eq_true, if_false, hr, if_true]; exact h
          · by_cases hend : ctx.timestamp > m.end_time
            · simp only [exec, hcal, hmkt, if_true, Bool.false_eq_true, if_false, if_neg hr, if_pos hend]; exact h
            · by_cases hs0 : shares = 0
              · simp only [exec, hcal, hmkt, if_true, Bool.false_eq_true, if_false, if_neg hr, if_neg hend,
                  if_pos hs0]; exact h
              · by_cases hpo : shares ≥ m.yes_pool
                · simp only [exec, hcal, hmkt, if_true, Bool.false_eq_true, if_false, if_neg hr, if_neg hend,
                    if_neg hs0, if_pos hpo]; exact h
                · cases hsmd : safe_mul_div m.no_pool shares
                      (m.yes_pool - shares) with
                  | error e =>
                    simp only [exec, hcal, hmkt, if_true, Bool.false_eq_true, if_false, if_neg hr, if_neg hend,
                      if_neg hs0, if_neg hpo, hsmd]; exact h
                  | ok cost =>
                    by_cases hcm : cost > maxc
                    · simp only [exec, hcal, hmkt, if_true, Bool.false_eq_true, if_false, if_neg hr, if_neg hend,
                        if_neg hs0, if_neg hpo, hsmd, if_pos hcm]; exact h
                    · simp only [exec, hcal, hmkt, if_true, Bool.false_eq_true, if_false, if_neg hr, if_neg hend,
                        if_neg hs0, if_neg hpo, hsmd, if_neg hcm,
                        update_position, create_feed_item]
                      obtain ⟨k, hk, hky, hkn⟩ :=
                        h.sums (mid, m) (mapGet_some_mem _ _ _ hmkt)
                      have hky' : m.total_yes_shares =
                        k + sumYes s.positions mid := hky
                      have hple : ((mapGet s.positions (u, mid)).getD
                          (zeroPos u mid)).yes_shares ≤
                          sumYes s.positions mid := by
                        cases hpos : mapGet s.positions (u, mid) with
                        | none => simp [Option.getD, zeroPos]
                        | some p0 =>
                          simpa [Option.getD] using le_sumShares
                            Position.yes_shares s.positions (u, mid) p0
                            mid hpos rfl
                      have hpsat : ((mapGet s.positions (u, mid)).getD
                          (zeroPos u mid)).yes_shares + shares ≤ UMAX := by
                        omega
                      refine shareInv_trade s _ σ u mid m _ _ h hmkt
                        rfl rfl rfl ?_ ?_
                      · show satAdd m.total_yes_shares shares +
                          ((mapGet s.positions (u, mid)).getD
                            (zeroPos u mid)).yes_shares =
                          m.total_yes_shares +
                          satAdd (((mapGet s.positions (u, mid)).getD
                            (zeroPos u mid)).yes_shares) shares
                        rw [satAdd_eq _ _ htys, satAdd_eq _ _ hpsat]
                        omega
                      · rfl
        | false =>
          have htns : m.total_no_shares + shares ≤ UMAX := by
            simpa [opGuard, hmkt] using hg
          by_cases hr : m.resolved = true
          · simp only [exec, hcal, hmkt, if_true, Bool.false_eq_true, if_false, hr, if_true]; exact h
          · by_cases hend : ctx.timestamp > m.end_time
            · simp only [exec, hcal, hmkt, if_true, Bool.false_eq_true, if_false, if_neg hr, if_pos hend]; exact h
            · by_cases hs0 : shares = 0
              · simp only [exec, hcal, hmkt, if_true, Bool.false_eq_true, if_false, if_neg hr, if_neg hend,
                  if_pos hs0]; exact h
              · by_cases hpo : shares ≥ m.no_pool
                · simp only [exec, hcal, hmkt, if_true, Bool.false_eq_true, if_false, if_neg hr, if_neg hend,
                    if_neg hs0, if_pos hpo]; exact h
                · cases hsmd : safe_mul_div m.yes_pool shares
                      (m.no_pool - shares) with
                  | error e =>
                    simp only [exec, hcal, hmkt, if_true, Bool.false_eq_true, if_false, if_neg hr, if_neg hend,
                      if_neg hs0, if_neg hpo, hsmd]; exact h
                  | ok cost =>
                    by_cases hcm : cost > maxc
                    · simp only [exec, hcal, hmkt, if_true, Bool.false_eq_true, if_false, if_neg hr, if_neg hend,
                        if_neg hs0, if_neg hpo, hsmd, if_pos hcm]; exact h
                    · simp only [exec, hcal, hmkt, if_true, Bool.false_eq_true, if_false, if_neg hr, if_neg hend,
                        if_neg hs0, if_neg hpo, hsmd, if_neg hcm,
                        update_position, create_feed_item]
                      obtain ⟨k, hk, hky, hkn⟩ :=
                        h.sums (mid, m) (mapGet_some_mem _ _ _ hmkt)
                      have hkn' : m.total_no_shares =
                        k + sumNo s.positions mid := hkn
                      have hple : ((mapGet s.positions (u, mid)).getD
                          (zeroPos u mid)).no_shares ≤
                          sumNo s.positions mid := by
                        cases hpos : mapGet s.positions (u, mid) with
                        | none => simp [Option.getD, zeroPos]
                        | some p0 =>
                          simpa [Option.getD] using le_sumShares
                            Position.no_shares s.positions (u, mid) p0
                            mid hpos rfl
                      have hpsat : ((mapGet s.positions (u, mid)).getD
                          (zeroPos u mid)).no_shares + shares ≤ UMAX := by
                        omega
                      refine shareInv_trade s _ σ u mid m _ _ h hmkt
                        rfl rfl rfl ?_ ?_
                      · rfl
                      · show satAdd m.total_no_shares shares +
                          ((mapGet s.positions (u, mid)).getD
                            (zeroPos u mid)).no_shares =
                          m.total_no_shares +
                          satAdd (((mapGet s.positions (u, mid)).getD
                            (zeroPos u mid)).no_shares) shares
                        rw [satAdd_eq _ _ htns, satAdd_eq _ _ hpsat]
                        omega
    case SellShares mid is_yes shares minp =>
      cases hmkt : mapGet s.markets mid with
      | none => simp only [exec, hcal, hmkt]; exact h
      | some m =>
        cases is_yes with
        | true =>
          have hsy : shares ≤ ((mapGet s.positions (u, mid)).getD
              (zeroPos u mid)).yes_shares := by
            simpa [opGuard, hcal] using hg
          by_cases hr : m.resolved = true
          · simp only [exec, hcal, hmkt, if_true, Bool.false_eq_true, if_false, hr, if_true]; exact h
          · by_cases hs0 : shares = 0
            · simp only [exec, hcal, hmkt, if_true, Bool.false_eq_true, if_false, if_neg hr, if_pos hs0]; exact h
            · cases hsmd : safe_mul_div m.no_pool shares
                  (wadd m.yes_pool shares) with
              | error e =>
                simp only [exec, hcal, hmkt, if_true, Bool.false_eq_true, if_false, if_neg hr, if_neg hs0, hsmd]
                exact h
              | ok proceeds =>
                by_cases hpm : proceeds < minp
                · simp only [exec, hcal, hmkt, if_true, Bool.false_eq_true, if_false, if_neg hr, if_neg hs0, hsmd,
                    if_pos hpm]; exact h
                · simp only [exec, hcal, hmkt, if_true, Bool.false_eq_true, if_false, if_neg hr, if_neg hs0, hsmd,
                    if_neg hpm, update_position, create_feed_item]
                  obtain ⟨k, hk, hky, hkn⟩ :=
                    h.sums (mid, m) (mapGet_some_mem _ _ _ hmkt)
                  have hky' : m.total_yes_shares =
                    k + sumYes s.positions mid := hky
                  have hple : ((mapGet s.positions (u, mid)).getD
                      (zeroPos u mid)).yes_shares ≤
                      sumYes s.positions mid := by
                    cases hpos : mapGet s.positions (u, mid) with
                    | none => simp [Option.getD, zeroPos]
                    | some p0 =>
                      simpa [Option.getD] using le_sumShares
                        Position.yes_shares s.positions (u, mid) p0
                        mid hpos rfl
                  refine shareInv_trade s _ σ u mid m _ _ h hmkt
                    rfl rfl rfl ?_ ?_
                  · show (m.total_yes_shares - shares) +
                      ((mapGet s.positions (u, mid)).getD
                        (zeroPos u mid)).yes_shares =
                      m.total_yes_shares +
                      (((mapGet s.positions (u, mid)).getD
                        (zeroPos u mid)).yes_shares - shares)
                    omega
                  · rfl
        | false =>
          have hsn : shares ≤ ((mapGet s.positions (u, mid)).getD
              (zeroPos u mid)).no_shares := by
            simpa [opGuard, hcal] using hg
          by_cases hr : m.resolved = true
          · simp only [exec, hcal, hmkt, if_true, Bool.false_eq_true, if_false, hr, if_true]; exact h
          · by_cases hs0 : shares = 0
            · simp only [exec, hcal, hmkt, if_true, Bool.false_eq_true, if_false, if_neg hr, if_pos hs0]; exact h
            · cases hsmd : safe_mul_div m.yes_pool shares
                  (wadd m.no_pool shares) with
              | error e =>
                simp only [exec, hcal, hmkt, if_true, Bool.false_eq_true, if_false, if_neg hr, if_neg hs0, hsmd]
                exact h
              | ok proceeds =>
                by_cases hpm : proceeds < minp
                · simp only [exec, hcal, hmkt, if_true, Bool.false_eq_true, if_false, if_neg hr, if_neg hs0, hsmd,
                    if_pos hpm]; exact h
                · simp only [exec, hcal, hmkt, if_true, Bool.false_eq_true, if_false, if_neg hr, if_neg hs0, hsmd,
                    if_neg hpm, update_position, create_feed_item]
                  obtain ⟨k, hk, hky, hkn⟩ :=
                    h.sums (mid, m) (mapGet_some_mem _ _ _ hmkt)
                  have hkn' : m.total_no_shares =
                    k + sumNo s.positions mid := hkn
                  have hple : ((mapGet s.positions (u, mid)).getD
                      (zeroPos u mid)).no_shares ≤
                      sumNo s.positions mid := by
                    cases hpos : mapGet s.positions (u, mid) with
                    | none => simp [Option.getD, zeroPos]
                    | some p0 =>
                      simpa [Option.getD] using le_sumShares
                        Position.no_shares s.positions (u, mid) p0
                        mid hpos rfl
                  refine shareInv_trade s _ σ u mid m _ _ h hmkt
                    rfl rfl rfl ?_ ?_
                  · rfl
                  · show (m.total_no_shares - shares) +
                      ((mapGet s.positions (u, mid)).getD
                        (zeroPos u mid)).no_shares =
                      m.total_no_shares +
                      (((mapGet s.positions (u, mid)).getD
                        (zeroPos u mid)).no_shares - shares)
                    omega
    case ResolveMarket mid outcome =>
      cases hmkt : mapGet s.markets mid with
      | none => simp only [exec, hcal, hmkt]; exact h
      | some m =>
        by_cases hr : m.resolved = true
        · simp only [exec, hcal, hmkt, if_true, Bool.false_eq_true, if_false, hr, if_true]; exact h
        · by_cases hcr : m.creator ≠ u
          · simp only [exec, hcal, hmkt, if_true, Bool.false_eq_true, if_false, if_neg hr, if_pos hcr]; exact h
          · simp only [exec, hcal, hmkt, if_true, Bool.false_eq_true, if_false, if_neg hr, if_neg hcr,
              update_combos_for_market]
            exact shareInv_market_replace s _ σ mid m _ h hmkt
              rfl rfl rfl rfl rfl
    case ClaimWinnings mid =>
      cases hmkt : mapGet s.markets mid with
      | none => simp only [exec, hcal, hmkt]; exact h
      | some m =>
        by_cases hrf : m.resolved = false
        · simp only [exec, hcal, hmkt, if_true, Bool.false_eq_true, if_false, if_pos hrf]; exact h
        · cases hpos2 : mapGet s.positions (u, mid) with
          | none => simp only [exec, hcal, hmkt, if_true, Bool.false_eq_true, if_false, if_neg hrf, hpos2]; exact h
          | some p0 =>
            by_cases hclm : p0.claimed = true
            · simp only [exec, hcal, hmkt, if_true, Bool.false_eq_true, if_false, if_neg hrf, hpos2, hclm, if_true]
              exact h
            · cases hout : m.outcome with
              | none =>
                simp only [exec, hcal, hmkt, if_true, Bool.false_eq_true,
                  if_false, if_neg hrf, hpos2, if_neg hclm, hout]; exact h
              | some b =>
                cases b with
                | true =>
                  by_cases hw0 : p0.yes_shares = 0
                  · simp only [exec, hcal, hmkt, if_true, Bool.false_eq_true,
                      if_false, if_neg hrf, hpos2, if_neg hclm, hout,
                      if_pos hw0]; exact h
                  · cases hsmd : safe_mul_div p0.yes_shares
                        (satAdd m.yes_pool m.no_pool) m.total_yes_shares with
                    | error e =>
                      simp only [exec, hcal, hmkt, if_true,
                        Bool.false_eq_true, if_false, if_neg hrf, hpos2,
                        if_neg hclm, hout, if_neg hw0,
                        show ((some true : Option Bool) == some true) = true
                          from rfl, hsmd]
                      exact h
                    | ok pay =>
                      simp only [exec, hcal, hmkt, if_true,
                        Bool.false_eq_true, if_false, if_neg hrf, hpos2,
                        if_neg hclm, hout, if_neg hw0,
                        show ((some true : Option Bool) == some true) = true
                          from rfl, hsmd]
                      refine shareInv_pos_update s _ σ u mid _ h
                        (h.mids (mid, m) (mapGet_some_mem _ _ _ hmkt))
                        rfl rfl rfl ?_ ?_
                      · show p0.yes_shares =
                          ((mapGet s.positions (u, mid)).getD
                            (zeroPos u mid)).yes_shares
                        rw [hpos2]
                        rfl
                      · show p0.no_shares =
                          ((mapGet s.positions (u, mid)).getD
                            (zeroPos u mid)).no_shares
                        rw [hpos2]
                        rfl
                | false =>
                  by_cases hw0 : p0.no_shares = 0
                  · simp only [exec, hcal, hmkt, if_true, Bool.false_eq_true,
                      if_false, if_neg hrf, hpos2, if_neg hclm, hout,
                      if_pos hw0]; exact h
                  · cases hsmd : safe_mul_div p0.no_shares
                        (satAdd m.yes_pool m.no_pool) m.total_no_shares with
                    | error e =>
                      simp only [exec, hcal, hmkt, if_true,
                        Bool.false_eq_true, if_false, if_neg hrf, hpos2,
                        if_neg hclm, hout, if_neg hw0,
                        show ((some false : Option Bool) == some true) = false
                          from rfl, hsmd]
                      exact h
                    | ok pay =>
                      simp only [exec, hcal, hmkt, if_true,
                        Bool.false_eq_true, if_false, if_neg hrf, hpos2,
                        if_neg hclm, hout, if_neg hw0,
                        show ((some false : Option Bool) == some true) = false
                          from rfl, hsmd]
                      refine shareInv_pos_update s _ σ u mid _ h
                        (h.mids (mid, m) (mapGet_some_mem _ _ _ hmkt))
                        rfl rfl rfl ?_ ?_
                      · show p0.yes_shares =
                          ((mapGet s.positions (u, mid)).getD
                            (zeroPos u mid)).yes_shares
                        rw [hpos2]
                        rfl
                      · show p0.no_shares =
                          ((mapGet s.positions (u, mid)).getD
                            (zeroPos u mid)).no_shares
                        rw [hpos2]
                        rfl
    all_goals simp only [exec, hcal, update_position, create_feed_item]
    all_goals repeat' split
    all_goals exact shareInv_frame σ s _ rfl rfl rfl h

theorem shareInv_init (σ : Nat → Option Nat) : SeedInv σ initState := by
  refine ⟨?_, ?_, ?_, ?_, ?_⟩ <;> simp [initState]

theorem shareInv_run (l : List (Ctx × Operation)) :
    ∀ s σ, SeedInv σ s → guardsOk s l = true →
      SeedInv (runSeed s l σ) (runOps s l) := by
  induction l with
  | nil => intro s σ hs _; exact hs
  | cons co rest ih =>
    intro s σ hs hg
    simp only [guardsOk, Bool.and_eq_true] at hg
    exact ih _ _ (shareInv_step s co.1 co.2 σ hs hg.1) hg.2

/-- C3 (amended): in every state reachable from the fresh state by a
trace of operations along which id counters do not wrap, share totals do
not saturate, and every sell stays within the seller's recorded balance
(`guardsOk`), each market's `total_yes_shares` equals a fixed per-market
seed plus the sum of all stored positions' `yes_shares` for that
market, and `total_no_shares` equals the same seed plus the sum of
`no_shares`.  The seed is `seedOf initState l mid`, determined by the
trace alone: half the `initial_liquidity` of the `CreateMarket` call
that allocated id `mid` (the only value `stepSeed` ever records).  The
unamended claim (totals equal the bare sums) is false already right
after `CreateMarket`. -/
theorem total_shares_eq_seed_plus_sum (l : List (Ctx × Operation))
    (hg : guardsOk initState l = true) :
    ∀ p ∈ (runOps initState l).markets, ∃ k,
      seedOf initState l p.1 = some k ∧
      p.2.total_yes_shares = k + sumYes (runOps initState l).positions p.1 ∧
      p.2.total_no_shares = k + sumNo (runOps initState l).positions p.1 :=
  (shareInv_run l initState (fun _ => none) (shareInv_init _) hg).sums

/-- Witness for the amended C3 theorem on the create-then-buy trace:
the recovered seed is `some 500` (half of the `CreateMarket` liquidity
1000), `total_yes_shares = 600 = 500 + 100` and
`total_no_shares = 500 = 500 + 0`. -/
theorem total_shares_eq_seed_plus_sum_witness :
    guardsOk initState c3wTrace = true ∧
    seedOf initState c3wTrace 0 = some 500 ∧
    mapGet (runOps initState c3wTrace).markets 0 = some c3wMarket ∧
    c3wMarket.total_yes_shares =
      500 + sumYes (runOps initState c3wTrace).positions 0 ∧
    c3wMarket.total_no_shares =
      500 + sumNo (runOps initState c3wTrace).positions 0 := by
  obtain ⟨k, hk, hy, hn⟩ := total_shares_eq_seed_plus_sum c3wTrace
    (by decide) (0, c3wMarket) (by decide)
  have hk' : seedOf initState c3wTrace 0 = some k := hk
  have h500 : seedOf initState c3wTrace 0 = some 500 := by decide
  rw [h500] at hk'
  have hkeq : k = 500 := (Option.some.inj hk').symm
  subst hkeq
  exact ⟨by decide, h500, by decide, hy, hn⟩
